import Mathlib

/-!
Verification development for the UTXO peel/cluster analyser (`app.py`).

The Python source is shallowly embedded below.  Satoshi amounts and other
machine numbers are modelled exactly: integers as `Int`/`Nat`, float
arithmetic as exact rationals (`ℚ`), and Python's `round` (banker's
rounding, round-half-to-even) as `pyRound`.  The single genuinely
irrational float operation of the source, `math.sqrt` / `** 0.5`, is
abstracted as a parameter (`FloatOps.sqrt`) so that every definition
stays executable; no verified property depends on its value.  Network
calls (`requests.get` against the Esplora API) are modelled by an
`Esplora` record of oracle functions returning `Except`, mirroring the
fact that each call can raise.  Python dictionaries are modelled as
association lists that keep insertion order, matching CPython's ordered
dicts; Python truthiness (`or` defaults, `if x:` tests on strings and
optional ints) is modelled explicitly by the `pyOr`/`truthy` helpers.
-/

set_option autoImplicit false

/-- Python truthiness of an optional string: `None` and `""` are falsy. -/
def strTruthy : Option String → Bool
  | none => false
  | some s => s ≠ ""

/-- Python truthiness of an optional integer: `None` and `0` are falsy. -/
def intTruthy : Option Int → Bool
  | none => false
  | some v => v ≠ 0

/-- Python `x or d` for an optional string `x` and a string default `d`. -/
def pyOrStr (v : Option String) (d : String) : String :=
  match v with
  | none => d
  | some s => if s = "" then d else s

/-- Python `x.get(k, 0)` / `x or 0` for an optional integer field. -/
def pyOrInt (v : Option Int) : Int := v.getD 0

/-- Python `round` on an exact rational: round half to even (banker's rounding). -/
def pyRound (q : ℚ) : ℤ :=
  let f : ℤ := ⌊q⌋
  let r : ℚ := q - f
  if r < 1/2 then f
  else if 1/2 < r then f + 1
  else if f % 2 = 0 then f else f + 1

/-- Python `round(x, n)` on an exact rational. -/
def pyRoundTo (q : ℚ) (n : ℕ) : ℚ :=
  (pyRound (q * (10 : ℚ) ^ n) : ℚ) / (10 : ℚ) ^ n

/-- Count of trailing decimal zeros of a positive natural number. -/
def tz10 (n : ℕ) : ℕ :=
  if h : n ≠ 0 ∧ n % 10 = 0 then tz10 (n / 10) + 1 else 0
  termination_by n
  decreasing_by
    exact Nat.div_lt_self (Nat.pos_of_ne_zero h.1) (by norm_num)

/-- Python list indexing `l[i]`: negative indices wrap from the end,
out-of-range raises `IndexError`. -/
def pyListGet {α : Type} (l : List α) (i : Int) : Except String α :=
  let j : Int := if i < 0 then i + l.length else i
  if h : 0 ≤ j ∧ j.toNat < l.length then .ok (l.get ⟨j.toNat, h.2⟩)
  else .error "IndexError: list index out of range"

/-- Python `max(l, default=0)` over integers. -/
def pyMaxD0 (l : List Int) : Int :=
  match l with
  | [] => 0
  | x :: xs => xs.foldl max x

/-- Python `str.strip()`: drop leading and trailing ASCII whitespace.
Implemented over the character list so that concrete instances reduce. -/
def pyStrip (s : String) : String :=
  let ws : Char → Bool := fun c =>
    c = ' ' ∨ c = '\t' ∨ c = '\n' ∨ c = '\r' ∨ c = '\x0b' ∨ c = '\x0c'
  String.mk (((s.data.dropWhile ws).reverse.dropWhile ws).reverse)

/-- Abstraction of the one float operation that has no exact rational model:
`math.sqrt` / `** 0.5`.  No verified property depends on its value. -/
structure FloatOps where
  sqrt : ℚ → ℚ

namespace UnionFind

/-- The `self.parent` dict of the Python `UnionFind`, as an insertion-ordered
association list. -/
abbrev State : Type := List (String × String)

/-- Dict lookup `parent[a]` / `a in parent`. -/
def lkp : State → String → Option String
  | [], _ => none
  | (k, v) :: rest, a => if a = k then some v else lkp rest a

/-- The dict's key list, in insertion order. -/
def keysOf (p : State) : List String := p.map Prod.fst

/-- Dict assignment `parent[a] = r` for an existing key `a` (keeps insertion
order, like CPython). -/
def setk (p : State) (a r : String) : State :=
  p.map (fun kv => if kv.1 = a then (a, r) else kv)

/-- Iterating the parent pointer from `a` with the given fuel until a fixpoint
(or an unmapped name, which `find` would treat as a fresh self-parenting root).
`none` means the fuel ran out. -/
def rootN : ℕ → State → String → Option String
  | 0, _, _ => none
  | n + 1, p, a =>
    match lkp p a with
    | none => some a
    | some b => if b = a then some a else rootN n p b

/-- The representative of `a`, read off with enough fuel for any acyclic state. -/
def rootOf (p : State) (a : String) : String :=
  (rootN (p.length + 1) p a).getD a

/-- `UnionFind.find` with path compression, fuelled.  Mirrors the Python
recursion: unseen keys are inserted as their own parent, and on the way out
every node on the search path is re-pointed at the root. -/
def findAux : ℕ → State → String → Option (String × State)
  | 0, _, _ => none
  | n + 1, p, a =>
    match lkp p a with
    | none => some (a, p ++ [(a, a)])
    | some b =>
      if b = a then some (a, p)
      else
        match findAux n p b with
        | none => none
        | some (r, p1) => some (r, setk p1 a r)

/-- `UnionFind.find`.  The fuel `p.length + 1` always suffices on the acyclic
states reachable from the empty map (proved below). -/
def find (p : State) (a : String) : String × State :=
  (findAux (p.length + 1) p a).getD (a, p)

/-- `UnionFind.union`: `parent[rb] = ra` unless the roots already agree. -/
def union (p : State) (a b : String) : State :=
  let fa := find p a
  let fb := find fa.2 b
  if fa.1 ≠ fb.1 then setk fb.2 fb.1 fa.1 else fb.2

/-- Append `k` to the group of root `r` (defaultdict-of-list semantics,
new roots appended at the end). -/
def appendAt (acc : List (String × List String)) (r k : String) : List (String × List String) :=
  if acc.any (fun e => e.1 = r) then
    acc.map (fun e => if e.1 = r then (r, e.2 ++ [k]) else e)
  else acc ++ [(r, [k])]

/-- Lookup in the groups association list, `clusters.get(r, [])`. -/
def dget : List (String × List String) → String → List String
  | [], _ => []
  | (k, v) :: rest, r => if r = k then v else dget rest r

/-- `UnionFind.groups`: `out[find(k)].append(k)` over a snapshot of the keys,
threading the (compressing) state. -/
def groups (p : State) : List (String × List String) × State :=
  (keysOf p).foldl
    (fun acc k =>
      let fr := find acc.2 k
      (appendAt acc.1 fr.1 k, fr.2))
    ([], p)

/-- Well-formedness of a parent map: keys are unique, every stored parent is
itself a key, and some depth measure strictly decreases along non-self parent
links (so the parent graph is an acyclic forest). -/
structure Wf (p : State) : Prop where
  nodup : (keysOf p).Nodup
  valuesKeys : ∀ a b, lkp p a = some b → b ∈ keysOf p
  acyclic : ∃ D : String → ℕ, ∀ a b, lkp p a = some b → b ≠ a → D b < D a

end UnionFind

/-- A `prevout` record of an Esplora transaction input (`none` = key absent). -/
structure Prevout where
  scriptpubkey_address : Option String := none
  scriptpubkey_type : Option String := none
  value : Option Int := none
  deriving DecidableEq

/-- A `vin` entry; the `prevout` key may be absent or null (both `none`). -/
structure Vin where
  prevout : Option Prevout := none
  deriving DecidableEq

/-- A `vout` entry of an Esplora transaction. -/
structure Vout where
  scriptpubkey_address : Option String := none
  scriptpubkey_type : Option String := none
  value : Option Int := none
  deriving DecidableEq

/-- An Esplora transaction JSON as consumed by the analysis core. -/
structure TxJson where
  txid : String := ""
  vin : List Vin := []
  vout : List Vout := []
  deriving DecidableEq

/-- One entry of the `/tx/:txid/outspends` response. -/
structure OutspendR where
  value : Option Int := none
  spent : Bool := false
  txid : Option String := none
  vin : Option Int := none
  deriving DecidableEq

/-- The blockchain-data provider (`get_tx_json` / `get_outspends` in the
source); each call may fail, modelled as `Except`. -/
structure Esplora where
  get_tx_json : String → Except String TxJson
  get_outspends : String → Except String (List OutspendR)

/-- Python `max(set(l), key=l.count)`: an element of maximal multiplicity.
CPython iterates the set in an implementation-defined order, so ties are
broken arbitrarily there; here they are broken by a fixed enumeration of the
distinct elements.  Every verified property only relies on the case of a
unique maximally-frequent element, where all tie-breaks agree. -/
def majorityOf (l : List String) : Option String :=
  l.dedup.foldl
    (fun acc s =>
      match acc with
      | none => some s
      | some b => if l.count b < l.count s then some s else acc)
    none

/-- `detect_coinjoin`: applicable at ≥5 inputs and ≥5 outputs; coefficient of
variation of the positive output values mapped to a score. -/
def detect_coinjoin (F : FloatOps) (tx : TxJson) : Bool × ℚ :=
  let vin_count := tx.vin.length
  let vout_count := tx.vout.length
  if 5 ≤ vin_count ∧ 5 ≤ vout_count then
    let values : List ℚ := tx.vout.filterMap (fun v =>
      let x := pyOrInt v.value
      if 0 < x then some ((x : ℚ)) else none)
    if values = [] then (false, 0)
    else
      let mean : ℚ := values.sum / (values.length : ℚ)
      let variance : ℚ := (values.map (fun x => ((x - mean) ^ 2 : ℚ))).sum / (values.length : ℚ)
      let sd := F.sqrt variance
      let rel := sd / (mean + 1 / 1000000000)
      let score := max 0 (1 - min (rel / (1/20)) 1)
      (decide (3/5 < score), score)
  else (false, 0)

/-- Output record of the simple scorer `change_candidate_scores`.  The source
dict has keys `vout_index`, `address`, `value`, `score` and carries no flag
key; reading its (absent) tag set yields the empty list. -/
structure SimpleScoreRec where
  vout_index : ℕ
  address : String
  value : Int
  score : ℚ
  flags : List String := []
  deriving DecidableEq

/-- The input prevout addresses collected by the simple scorer. -/
def simpleVinAddrs (tx : TxJson) : List String :=
  tx.vin.filterMap (fun v => (v.prevout.getD {}).scriptpubkey_address)

/-- The input prevout script types collected by both scorers. -/
def simpleVinTypes (tx : TxJson) : List String :=
  tx.vin.filterMap (fun v => (v.prevout.getD {}).scriptpubkey_type)

/-- The simple scorer's remainder base: the largest single input value
(`max(input_values + [0])`). -/
def simpleMaxIn (tx : TxJson) : Int :=
  pyMaxD0 ((tx.vin.map (fun v => pyOrInt (v.prevout.getD {}).value)) ++ [0])

/-- The detailed scorer's remainder base: the *total* input value
(`sum(input_values) or 1`). -/
def detailedTotalIn (tx : TxJson) : Int :=
  if (tx.vin.map (fun v => pyOrInt (v.prevout.getD {}).value)).sum = 0 then 1
  else (tx.vin.map (fun v => pyOrInt (v.prevout.getD {}).value)).sum

/-- Main scoring pass of `change_candidate_scores` (everything before the
sole-positive boost). -/
def simple_main (tx : TxJson) : List SimpleScoreRec :=
  let vin_addrs : List String := simpleVinAddrs tx
  let vin_script_types : List String := simpleVinTypes tx
  let majority_script := majorityOf vin_script_types
  let max_in : Int := simpleMaxIn tx
  tx.vout.enum.map (fun iv =>
    let idx := iv.1
    let v := iv.2
    let addr := v.scriptpubkey_address
    let sval := pyOrInt v.value
    let s1 : ℚ := if strTruthy addr = true ∧ addr.getD "" ∈ vin_addrs then 2/5 else 0
    let s2 : ℚ :=
      if strTruthy majority_script = true ∧ v.scriptpubkey_type = majority_script
      then 1/5 else 0
    let s3 : ℚ :=
      if 0 < max_in ∧ (sval : ℚ) < (max_in : ℚ) * (19/20) ∧ 0 < sval then 1/5 else 0
    { vout_index := idx, address := pyOrStr addr "NON_STANDARD", value := sval,
      score := pyRoundTo (min (s1 + s2 + s3) 1) 4 })

/-- Sole-positive boost of the simple scorer: `+0.15`, no tag (the source dict
has no flag field to tag). -/
def sole_positive_boost_simple (l : List SimpleScoreRec) : List SimpleScoreRec :=
  if (l.filter (fun o => 0 < o.score)).length = 1 then
    l.map (fun o => if 0 < o.score then { o with score := min 1 (o.score + 3/20) } else o)
  else l

/-- `change_candidate_scores` (the batch/simple scorer). -/
def change_candidate_scores (tx : TxJson) : List SimpleScoreRec :=
  sole_positive_boost_simple (simple_main tx)

/-- `trailing_zeros_in_sats`. -/
def trailing_zeros_in_sats (sats : Int) : ℕ :=
  if sats ≤ 0 then 0 else tz10 sats.toNat

/-- Number of significant fractional digits of `sats/1e8` rendered with 8
decimals and right-stripped of zeros (the `f"{sats/1e8:.8f}"` + `rstrip`
heuristic of the source), computed exactly from the satoshi value.  (The
float rendering is exact throughout the satoshi range the tool handles.) -/
def decimalLen (sats : Int) : ℕ :=
  let m := sats.natAbs % 100000000
  if m = 0 then 0 else 8 - tz10 m

/-- Output record of `detect_change_candidates_for_tx`. -/
structure CandRec where
  vout_index : ℕ
  address : String
  value_sats : Int
  score : ℚ
  flags : List String
  deriving DecidableEq

/-- Main scoring pass of `detect_change_candidates_for_tx` (everything before
the sole-positive boost). -/
def detailed_main (tx : TxJson) : List CandRec :=
  let values : List Int := tx.vout.map (fun v => pyOrInt v.value)
  let is_coinjoin_like : Prop := ¬ values.Nodup
  have : Decidable is_coinjoin_like := instDecidableNot
  let major_script := majorityOf (simpleVinTypes tx)
  let total_in : Int := detailedTotalIn tx
  tx.vout.enum.map (fun iv =>
    let idx := iv.1
    let v := iv.2
    let addr := pyOrStr v.scriptpubkey_address ("NON_STD_" ++ toString idx)
    let sats := pyOrInt v.value
    let t1 : ℚ × List String :=
      if 6 ≤ decimalLen sats then (1/5, ["high_decimal"]) else (0, [])
    let t2 : ℚ × List String :=
      if 5 ≤ trailing_zeros_in_sats sats then (-(3/20), ["round_amount"]) else (0, [])
    let t3 : ℚ × List String :=
      if strTruthy major_script = true ∧ v.scriptpubkey_type = major_script then
        (3/20, ["script_match"])
      else (0, [])
    let t4 : ℚ × List String :=
      if 0 < total_in ∧ 0 < sats ∧ (sats : ℚ) < (total_in : ℚ) * (19/20) then
        (1/10, ["smaller_than_inputs"])
      else (0, [])
    let t5 : ℚ × List String :=
      if is_coinjoin_like then (-(1/5), ["coinjoin_like"]) else (0, [])
    { vout_index := idx, address := addr, value_sats := sats,
      score := pyRoundTo (max (-1) (min 1 (t1.1 + t2.1 + t3.1 + t4.1 + t5.1))) 3,
      flags := t1.2 ++ t2.2 ++ t3.2 ++ t4.2 ++ t5.2 })

/-- Sole-positive boost of the detailed scorer: `+0.12` and the
`sole_positive_boost` tag. -/
def sole_positive_boost_detailed (l : List CandRec) : List CandRec :=
  if (l.filter (fun r => 0 < r.score)).length = 1 then
    l.map (fun r =>
      if 0 < r.score then
        { r with
          score := min 1 (r.score + 3/25)
          flags := r.flags ++ ["sole_positive_boost"] }
      else r)
  else l

/-- `detect_change_candidates_for_tx` (the single-address/detailed scorer). -/
def detect_change_candidates_for_tx (tx : TxJson) : List CandRec :=
  sole_positive_boost_detailed (detailed_main tx)

/-- A bipartite edge dict (`from`/`to` are `src`/`dst` here: `from` is a Lean
keyword). -/
structure BipEdge where
  type : String
  src : String
  dst : String
  sats : Int
  txid : String
  deriving DecidableEq

/-- `add_bipartite_edges_for_tx`: one `addr->tx` edge per input and one
`tx->addr` edge per output, appended to the running edge list.  (The trailing
`time.sleep` is a pure delay and has no data effect.) -/
def add_bipartite_edges_for_tx (tx : TxJson) (bip_edges : List BipEdge) : List BipEdge :=
  let ins := tx.vin.map (fun v =>
    let prev := v.prevout.getD {}
    { type := "addr->tx", src := pyOrStr prev.scriptpubkey_address "UNKNOWN_INPUT",
      dst := "tx:" ++ tx.txid, sats := pyOrInt prev.value, txid := tx.txid : BipEdge })
  let outs := tx.vout.enum.map (fun iv =>
    { type := "tx->addr", src := "tx:" ++ tx.txid,
      dst := pyOrStr iv.2.scriptpubkey_address ("NON_STD_VOUT_" ++ toString iv.1),
      sats := pyOrInt iv.2.value, txid := tx.txid : BipEdge })
  bip_edges ++ ins ++ outs

/-- A projected address-to-address edge. -/
structure ProjEdge where
  txid : String
  src : String
  dst : String
  sats : Int
  deriving DecidableEq

/-- The `tx_inputs[txid]` grouping of the projector. -/
def tx_inputs_of (bip_edges : List BipEdge) (t : String) : List (String × Int) :=
  bip_edges.filterMap (fun e =>
    if e.type = "addr->tx" ∧ e.txid = t then some (e.src, e.sats) else none)

/-- The `tx_outputs[txid]` grouping of the projector (the source's `else`
branch catches every edge that is not `addr->tx`). -/
def tx_outputs_of (bip_edges : List BipEdge) (t : String) : List (String × Int) :=
  bip_edges.filterMap (fun e =>
    if e.type ≠ "addr->tx" ∧ e.txid = t then some (e.dst, e.sats) else none)

/-- The transaction ids of the edge list.  The source iterates a Python `set`
whose order is unspecified; first-occurrence order is fixed here, and every
per-transaction property proved below is independent of that order. -/
def proj_txids (bip_edges : List BipEdge) : List String :=
  (bip_edges.map (fun e => e.txid)).dedup

/-- The projector's inner double loop for one transaction: proportional
attribution `share = (input/total_in) * output`, zero/negative shares dropped,
the rest rounded to integer satoshis. -/
def project_for_tx (t : String) (inputs outputs : List (String × Int)) : List ProjEdge :=
  let total_in : Int :=
    if (inputs.map (fun i => i.2)).sum = 0 then 1 else (inputs.map (fun i => i.2)).sum
  outputs.flatMap (fun od =>
    inputs.filterMap (fun inp =>
      let share : ℚ := ((inp.2 : ℚ) / (total_in : ℚ)) * (od.2 : ℚ)
      if share ≤ 0 then none
      else some { txid := t, src := inp.1, dst := od.1, sats := pyRound share }))

/-- `project_address_to_address`. -/
def project_address_to_address (bip_edges : List BipEdge) : List ProjEdge :=
  (proj_txids bip_edges).flatMap (fun t =>
    project_for_tx t (tx_inputs_of bip_edges t) (tx_outputs_of bip_edges t))

/-- One hop record of the peel-chain tracer (`none` = key absent in the dict). -/
structure Hop where
  from_tx : String
  from_vout : Int
  value_sats : Option Int := none
  value_source : Option String := none
  spent : Option Bool := none
  spent_in_tx : Option String := none
  spent_in_vin_index : Option Int := none
  spent_addr : Option String := none
  raw_outspend : Option OutspendR := none
  error : Option String := none
  deriving DecidableEq

/-- The `tx_vout` fallback step of the per-hop value-resolution chain of
`trace_peel_chain`, triggered by forced-lookup mode or a falsy outspend
value.  The steps pass along `(value, value_source)`; `none` = no tag
assigned yet. -/
def resolveStep2 (E : Esplora) (cur_tx : String) (cur_vout : Int)
    (v1 : Option Int) (force_vout : Bool) : Option Int × Option String :=
  if force_vout = true ∨ intTruthy v1 = false then
    match E.get_tx_json cur_tx with
    | .ok txj =>
      if cur_vout < (txj.vout.length : Int) then
        match pyListGet txj.vout cur_vout with
        | .ok vo => (some (pyOrInt vo.value), some "tx_vout")
        | .error _ => (v1, some "tx_vout_error")
      else (v1, some "tx_vout_missing_index")
    | .error _ => (v1, some "tx_vout_error")
  else (v1, none)

/-- The dead `outspends`-value recovery branch of the chain. -/
def resolveStep3 (outp : OutspendR) (r2 : Option Int × Option String) :
    Option Int × Option String :=
  if intTruthy r2.1 = false ∧ r2.2 = none then
    match outp.value with
    | some v => if 0 < v then (some v, some "outspends") else r2
    | none => r2
  else r2

/-- The `proxy_spent_largest` last resort of the chain. -/
def resolveStep4 (E : Esplora) (outp : OutspendR)
    (r3 : Option Int × Option String) : Option Int × Option String :=
  if intTruthy r3.1 = false then
    if outp.spent = true ∧ strTruthy outp.txid = true then
      match E.get_tx_json (outp.txid.getD "") with
      | .ok sp =>
        let proxy := pyMaxD0 (sp.vout.map (fun o => pyOrInt o.value))
        if 0 < proxy then (some proxy, some "proxy_spent_largest") else r3
      | .error _ => (r3.1, some "proxy_error")
    else r3
  else r3

/-- The final zero default and `unknown` tag of the chain. -/
def resolveFinal (r4 : Option Int × Option String) : Int × Option String :=
  (match r4.1 with
   | some v => v
   | none => 0,
   match r4.1 with
   | some _ => r4.2
   | none => if r4.2 = none then some "unknown" else r4.2)

/-- The value-resolution chain of `trace_peel_chain` for one hop: the
outspend's own value, the `tx_vout` fallback, the dead `outspends` recovery
branch, the `proxy_spent_largest` last resort, and the final zero default.
Returns the resolved value and the `value_source` tag. -/
def resolveHopValue (E : Esplora) (cur_tx : String) (cur_vout : Int)
    (outp : OutspendR) (force_vout : Bool) : Int × Option String :=
  resolveFinal (resolveStep4 E outp (resolveStep3 outp
    (resolveStep2 E cur_tx cur_vout outp.value force_vout)))

/-- Best-effort resolution of the address receiving the largest output of the
spending transaction (`spent_addr` in the source); failures yield `none`. -/
def resolveSpentAddr (E : Esplora) (outp : OutspendR) : Option String :=
  if outp.spent = true ∧ strTruthy outp.txid = true then
    match E.get_tx_json (outp.txid.getD "") with
    | .ok sp =>
      match sp.vout with
      | [] => none
      | v0 :: vs =>
        let cand := vs.foldl
          (fun best o => if pyOrInt best.value < pyOrInt o.value then o else best) v0
        some (pyOrStr cand.scriptpubkey_address "NON_STD")
    | .error _ => none
  else none

/-- The hop loop of `trace_peel_chain`, fuelled by `range(max_hops)`.  The
only uncaught exception is the `IndexError` of `outspends[cur_vout]` (the
bounds test `cur_vout >= len(outspends)` does not reject negative indices). -/
def traceLoop (E : Esplora) (force_vout : Bool) :
    ℕ → String → Int → List Hop → Except String (List Hop)
  | 0, _, _, chain => .ok chain
  | n + 1, cur_tx, cur_vout, chain =>
    match E.get_outspends cur_tx with
    | .error e =>
      .ok (chain ++ [{ from_tx := cur_tx
                       from_vout := cur_vout
                       value_sats := none
                       value_source := some "outspends_error"
                       error := some ("outspends_failed:" ++ e) }])
    | .ok outspends =>
      if (outspends.length : Int) ≤ cur_vout then
        .ok (chain ++ [{ from_tx := cur_tx
                         from_vout := cur_vout
                         value_sats := none
                         value_source := some "vout_index_out_of_range"
                         error := some "vout_index_out_of_range" }])
      else
        match pyListGet outspends cur_vout with
        | .error e => .error e
        | .ok outp =>
          let vr := resolveHopValue E cur_tx cur_vout outp force_vout
          let hop : Hop := { from_tx := cur_tx
                             from_vout := cur_vout
                             raw_outspend := some outp
                             value_sats := some vr.1
                             value_source := vr.2
                             spent := some outp.spent
                             spent_in_tx := outp.txid
                             spent_in_vin_index := outp.vin
                             spent_addr := resolveSpentAddr E outp }
          let chain2 := chain ++ [hop]
          if outp.spent = false ∨ strTruthy outp.txid = false then .ok chain2
          else traceLoop E force_vout n (outp.txid.getD "") 0 chain2

/-- `trace_peel_chain`. -/
def trace_peel_chain (E : Esplora) (txid : String) (vout_index : Int := 0)
    (max_hops : Int := 8) (force_vout : Bool := false) : Except String (List Hop) :=
  traceLoop E force_vout max_hops.toNat txid vout_index []

/-- The `details` dict returned by `compute_peel_score` (`none` = key absent;
the constant `weights` entry is omitted as data-free). -/
structure PeelDetails where
  n_hops_total : ℕ
  n_numeric_hops : ℕ
  value_sources : List String
  reason : Option String := none
  monotonicity : Option ℚ := none
  ratio_stability : Option ℚ := none
  small_peel_presence : Option ℚ := none
  hop_factor : Option ℚ := none
  raw_ratios : Option (List ℚ) := none
  deriving DecidableEq

/-- The strictly positive numeric hop values, in order. -/
def peelVals (peel_chain : List Hop) : List ℚ :=
  peel_chain.filterMap (fun h =>
    match h.value_sats with
    | some v => if 0 < v then some ((v : ℚ)) else none
    | none => none)

/-- The `value_source` tags collected alongside `peelVals`. -/
def peelSources (peel_chain : List Hop) : List String :=
  peel_chain.filterMap (fun h =>
    match h.value_sats with
    | some v => if 0 < v then some (h.value_source.getD "unknown") else none
    | none => none)

/-- `compute_peel_score`: monotonicity, ratio stability, small-peel presence
and hop-count factor, combined with weights 0.40/0.30/0.20/0.10. -/
def compute_peel_score (F : FloatOps) (E : Esplora) (peel_chain : List Hop) :
    ℚ × PeelDetails :=
  let vals := peelVals peel_chain
  let sources := peelSources peel_chain
  if vals.length < 2 then
    (0, { n_hops_total := peel_chain.length, n_numeric_hops := vals.length,
          value_sources := sources, reason := some "not_enough_numeric_hops" })
  else
    let pairs := vals.zip vals.tail
    let monotonic_count := (pairs.filter (fun ab => ab.2 ≤ ab.1 + 1/1000000000)).length
    let monotonicity : ℚ := (monotonic_count : ℚ) / ((vals.length : ℚ) - 1)
    let ratios : List ℚ := pairs.filterMap (fun ab =>
      if 0 < ab.1 then some (ab.2 / ab.1) else none)
    let ratio_stability : ℚ :=
      if ratios = [] then 0
      else
        let mean_r : ℚ := ratios.sum / (ratios.length : ℚ)
        let var : ℚ := (ratios.map (fun r => ((r - mean_r) ^ 2 : ℚ))).sum / (ratios.length : ℚ)
        let sd := F.sqrt var
        let mean_score := 1 - min 1 (|mean_r - 4/5| / (4/5))
        let sd_score := 1 / (1 + sd * 8)
        max 0 (min 1 (mean_score * (7/10) + sd_score * (3/10)))
    let smallChecks := peel_chain.filterMap (fun h =>
      if strTruthy h.spent_in_tx = true ∧ 0 < pyOrInt h.value_sats then
        some (h.spent_in_tx.getD "", pyOrInt h.value_sats)
      else none)
    let checks := smallChecks.length
    let small_peel_hits := (smallChecks.filter (fun sc =>
      match E.get_tx_json sc.1 with
      | .error _ => false
      | .ok stx =>
        let outs := stx.vout.map (fun o => pyOrInt o.value)
        if outs = [] then false
        else
          let largest := pyMaxD0 outs
          let other_outs := outs.filter (fun o => o ≠ largest)
          other_outs.any (fun o => decide ((o : ℚ) ≤ max 1 ((sc.2 : ℚ) * (1/20)))))).length
    let small_peel_presence : ℚ :=
      if 0 < checks then (small_peel_hits : ℚ) / (checks : ℚ) else 0
    let hop_factor : ℚ := min 1 ((vals.length : ℚ) / 6)
    let score := max 0 (min 1 ((2/5) * monotonicity + (3/10) * ratio_stability
      + (1/5) * small_peel_presence + (1/10) * hop_factor))
    (score, { n_hops_total := peel_chain.length
              n_numeric_hops := vals.length
              value_sources := sources
              reason := none
              monotonicity := some (pyRoundTo monotonicity 3)
              ratio_stability := some (pyRoundTo ratio_stability 3)
              small_peel_presence := some (pyRoundTo small_peel_presence 3)
              hop_factor := some (pyRoundTo hop_factor 3)
              raw_ratios := some (ratios.map (fun r => pyRoundTo r 4)) })

/-- The per-transaction flag record written by the batch pipeline. -/
structure TxFlag where
  txid : String
  coinjoin : Bool
  coinjoin_score : ℚ
  change_scores : List CandRec
  deriving DecidableEq

/-- The input-address list built by `process_txids` for the clustering step:
every input contributes, a missing or empty prevout address is replaced by the
`UNKNOWN_INPUT` sentinel. -/
def batch_inputs (tx : TxJson) : List String :=
  tx.vin.map (fun v => pyOrStr (v.prevout.getD {}).scriptpubkey_address "UNKNOWN_INPUT")

/-- The clustering step of `process_txids` for one transaction: with at least
two inputs, union the first input address with every other. -/
def batch_union_tx (uf : UnionFind.State) (tx : TxJson) : UnionFind.State :=
  match batch_inputs tx with
  | base :: other :: rest =>
    (other :: rest).foldl (fun u o => UnionFind.union u base o) uf
  | _ => uf

/-- The computed artifacts of `process_txids` (the CSV/PNG writing around them
is presentation). -/
structure BatchResult where
  bip_edges : List BipEdge
  uf : UnionFind.State
  tx_flags : List TxFlag
  projected : List ProjEdge
  deriving DecidableEq

/-- One iteration of the `process_txids` loop: strip the txid, skip blanks,
fetch the transaction (unwrapped call: failure propagates), score it, extend
the flag list, apply the clustering unions and append the bipartite edges. -/
def process_step (F : FloatOps) (E : Esplora)
    (acc : List BipEdge × UnionFind.State × List TxFlag) (txid0 : String) :
    Except String (List BipEdge × UnionFind.State × List TxFlag) := do
  let txid := pyStrip txid0
  if txid = "" then
    pure acc
  else
    let tx ← E.get_tx_json txid
    let cj := detect_coinjoin F tx
    let change_scores := detect_change_candidates_for_tx tx
    let flags2 := acc.2.2 ++ [{ txid := txid
                                coinjoin := cj.1
                                coinjoin_score := pyRoundTo cj.2 4
                                change_scores := change_scores }]
    let uf2 := batch_union_tx acc.2.1 tx
    let bip2 := add_bipartite_edges_for_tx tx acc.1
    pure (bip2, uf2, flags2)

/-- `process_txids`: the batch pipeline.  Note that the `get_tx_json` call is
not wrapped in any `try` in the source, so a provider failure propagates out
of the whole batch (modelled by the `Except` monad). -/
def process_txids (F : FloatOps) (E : Esplora) (txid_list : List String) :
    Except String BatchResult := do
  let st ← txid_list.foldlM (process_step F E) ([], [], [])
  pure { bip_edges := st.1
         uf := st.2.1
         tx_flags := st.2.2
         projected := project_address_to_address st.1 }

/-- The input-address list of `cluster_from_address`: only truthy prevout
addresses are kept (unknown inputs are skipped). -/
def known_inputs (tx : TxJson) : List String :=
  tx.vin.filterMap (fun v =>
    match (v.prevout.getD {}).scriptpubkey_address with
    | some a => if a = "" then none else some a
    | none => none)

/-- The common-input-ownership step of `cluster_from_address` for one
transaction. -/
def cluster_union_tx (uf : UnionFind.State) (tx : TxJson) : UnionFind.State :=
  match known_inputs tx with
  | base :: other :: rest =>
    (other :: rest).foldl (fun u o => UnionFind.union u base o) uf
  | _ => uf

/-- Step 1 of `cluster_from_address`: the union-find built from the
common-input unions over the fetched history. -/
def cluster_step1_uf (txs : List TxJson) : UnionFind.State :=
  txs.foldl cluster_union_tx []

/-- `seed_in_input_txids`: the transactions spending from the seed address. -/
def seed_in_input_txids (seed : String) (txs : List TxJson) : List String :=
  txs.filterMap (fun tx =>
    if tx.vin.any (fun v => (v.prevout.getD {}).scriptpubkey_address = some seed)
    then some tx.txid else none)

/-- A change candidate tagged with its source transaction
(`{**c, "source_tx": txid}` in the source). -/
structure CandTagged where
  cand : CandRec
  source_tx : String
  deriving DecidableEq

/-- Step 2 of `cluster_from_address`: for seed-spending transactions, every
detailed-scorer output with score ≥ 0.15 is collected (and never unioned). -/
def cluster_candidates (seed : String) (txs : List TxJson) : List CandTagged :=
  txs.foldl (fun acc tx =>
    if tx.txid ∈ seed_in_input_txids seed txs then
      acc ++ ((detect_change_candidates_for_tx tx).filter
        (fun c => (15/100 : ℚ) ≤ c.score)).map
        (fun c => { cand := c, source_tx := tx.txid })
    else acc) []

/-- The analysis result of `cluster_from_address` (CSV/summary rendering
omitted). -/
structure ClusterResult where
  members : List String
  candidates : List CandTagged
  deriving DecidableEq

/-- The post-fetch body of `cluster_from_address`: common-input unions,
change-candidate collection, and the member-list computation.  The source
computes the member list twice in a row; the second pass reads the same
(possibly seed-extended) list back and its membership test then fails, so the
net result is the single computation written here. -/
def cluster_from_address_core (seed : String) (txs : List TxJson) : ClusterResult :=
  let uf := cluster_step1_uf txs
  let cands := cluster_candidates seed txs
  let gs := UnionFind.groups uf
  let fr := UnionFind.find gs.2 seed
  let members0 := UnionFind.dget gs.1 fr.1
  let members := if seed ∈ members0 then members0 else members0 ++ [seed]
  { members := members, candidates := cands }

/-- The cluster membership described by the specification: the union-find
partition containing the seed address (derived from the common-input unions
alone, stated via the pure representative function `rootOf`), plus the seed
itself. -/
def specClusterMembers (seed : String) (txs : List TxJson) : List String :=
  let uf := cluster_step1_uf txs
  let part := (UnionFind.keysOf uf).filter
    (fun k => UnionFind.rootOf uf k = UnionFind.rootOf uf seed)
  if seed ∈ part then part else part ++ [seed]

/-- One call against a `UnionFind` instance. -/
inductive UFOp where
  | find (a : String)
  | union (a b : String)

/-- Running a call sequence against a freshly constructed `UnionFind`. -/
def runUFOps (ops : List UFOp) : UnionFind.State :=
  ops.foldl
    (fun p op =>
      match op with
      | .find a => (UnionFind.find p a).2
      | .union a b => UnionFind.union p a b)
    []

/-- The value-resolution fallback chain exactly as claim C5 words it:
(1) the spend-status response's own value field if numeric and present
(no provenance tag is prescribed for this case); (2) if forced-lookup mode is
enabled or (1) is absent, the source transaction's declared output value with
tag `tx_vout`; (3) if still absent and the output was spent, the largest
output value of the spending transaction with tag `proxy_spent_largest`;
(4) otherwise value 0 with provenance `unknown`.  "Absent" is literal
absence, so a declared value of 0 read in step (2) is a success that stops
the chain. -/
def claimedResolve (E : Esplora) (cur_tx : String) (cur_vout : Int)
    (outp : OutspendR) (force_vout : Bool) : Int × Option String :=
  let proxyStep : Int × Option String :=
    if outp.spent = true then
      match outp.txid with
      | some s =>
        match E.get_tx_json s with
        | .ok sp =>
          match sp.vout with
          | [] => (0, some "unknown")
          | _ => (pyMaxD0 (sp.vout.map (fun o => pyOrInt o.value)),
                  some "proxy_spent_largest")
        | .error _ => (0, some "unknown")
      | none => (0, some "unknown")
    else (0, some "unknown")
  if force_vout = false ∧ outp.value.isSome then (outp.value.getD 0, none)
  else
    match E.get_tx_json cur_tx with
    | .ok txj =>
      match pyListGet txj.vout cur_vout with
      | .ok vout_entry =>
        match vout_entry.value with
        | some w => (w, some "tx_vout")
        | none => proxyStep
      | .error _ => proxyStep
    | .error _ => proxyStep

/-- A fixed interpretation of the abstract float square root, used to
instantiate witnesses (no verified property depends on it). -/
def sqrtZero : FloatOps := { sqrt := fun _ => 0 }

/-- Test fixture: an input spending from the given address/script/value. -/
def exInput (a ty : Option String) (v : Option Int) : Vin :=
  { prevout := some { scriptpubkey_address := a, scriptpubkey_type := ty, value := v } }

/-- Test fixture: an output to the given address/script/value. -/
def exOutput (a ty : Option String) (v : Option Int) : Vout :=
  { scriptpubkey_address := a, scriptpubkey_type := ty, value := v }

/-- Test fixture: a transaction. -/
def exTx (t : String) (vin : List Vin) (vout : List Vout) : TxJson :=
  { txid := t, vin := vin, vout := vout }

/-- Fixture for C1: the provider fails on txid `a` and answers txid `b`. -/
def exEsploraC1 : Esplora :=
  { get_tx_json := fun t => if t = "b" then .ok (exTx "b" [] []) else .error "boom"
    get_outspends := fun _ => .error "no outspends" }

/-- Fixture for C2: one transaction with one known input address and one
input with no prevout (unknown address). -/
def exTxC2 : TxJson :=
  exTx "u" [exInput (some "A") none (some 5), { prevout := none }] []

/-- Fixture provider for C2: serves the unknown-input transaction as txid `u`. -/
def exEsploraC2 : Esplora :=
  { get_tx_json := fun t => if t = "u" then .ok exTxC2 else .error "not found"
    get_outspends := fun _ => .error "no outspends" }

/-- Fixture for C2/C4 witnesses: one two-known-input transaction spending
from seed `S`, with a high-scoring change output. -/
def exTxC4 : TxJson :=
  exTx "x1"
    [exInput (some "S") (some "w") (some 100), exInput (some "D") (some "w") (some 50)]
    [exOutput (some "E") (some "w") (some 123)]

/-- Fixture for C3: two equal inputs of 1 sat and one 3-sat output, making
both rounded shares 2 sats (banker's rounding of 1.5). -/
def exTxC3 : TxJson :=
  exTx "t3" [exInput (some "A") none (some 1), exInput (some "B") none (some 1)]
    [exOutput (some "C") none (some 3)]

/-- Fixture for C5: the source transaction declares output 0 with value 0;
the output is spent in `S`, whose largest output value is 5. -/
def exEsploraC5 : Esplora :=
  { get_tx_json := fun t =>
      if t = "CT" then .ok (exTx "CT" [] [exOutput none none (some 0)])
      else if t = "S" then .ok (exTx "S" [] [exOutput (some "W") none (some 5)])
      else .error "not found"
    get_outspends := fun _ => .error "no outspends" }

/-- The C5 outspend record: no value field, spent in `S`. -/
def exOutspendC5 : OutspendR := { value := none, spent := true, txid := some "S" }

/-- Fixture for C6: txid `T` has two unspent outputs with values 3 and 7. -/
def exEsploraC6 : Esplora :=
  { get_tx_json := fun _ => .error "not found"
    get_outspends := fun t =>
      if t = "T" then
        .ok [{ value := some 3, spent := false }, { value := some 7, spent := false }]
      else .error "not found" }

/-- Fixture for C7: one p2wpkh input; output 0 matches the input script type
and triggers no other detailed-scorer signal. -/
def exTxC7 : TxJson :=
  exTx "t7" [exInput none (some "p2wpkh") (some 100)]
    [exOutput none (some "p2wpkh") (some 0),
     exOutput (some "X") (some "p2tr") (some 123)]

/-- Fixture for C7: two 50-sat inputs and a 60-sat output.  60 is larger than
95% of the largest single input (47.5) but smaller than 95% of the total
input value (95). -/
def exTxC7b : TxJson :=
  exTx "t7b" [exInput none (some "w") (some 50), exInput none (some "z") (some 50)]
    [exOutput (some "Y") none (some 60)]

/-- Fixture for C8: exactly one output scores positive in the simple scorer
(address reuse + script match + remainder). -/
def exTxC8 : TxJson :=
  exTx "t8" [exInput (some "A") (some "s1") (some 100)]
    [exOutput (some "A") (some "s1") (some 50), exOutput (some "B") (some "s2") (some 100)]

/-- The change candidate the detailed scorer produces for `exTxC4`. -/
def exCandRecC4 : CandRec :=
  { vout_index := 0, address := "E", value_sats := 123, score := 57/100, flags := ["high_decimal", "script_match", "smaller_than_inputs", "sole_positive_boost"] }

/-- That candidate tagged with its source transaction. -/
def exCandC4 : CandTagged := { cand := exCandRecC4, source_tx := "x1" }

/-- The main-pass (pre-boost) record the detailed scorer produces for
`exTxC4`. -/
def exMainRecC4 : CandRec :=
  { vout_index := 0, address := "E", value_sats := 123, score := 9/20, flags := ["high_decimal", "script_match", "smaller_than_inputs"] }

/-- A provider that fails every call (the scorers under test never reach it). -/
def exEsploraDead : Esplora :=
  { get_tx_json := fun _ => .error "dead", get_outspends := fun _ => .error "dead" }

/-- Fixture for C9 witnesses: two positive-valued hops. -/
def exChainC9 : List Hop :=
  [{ from_tx := "h1", from_vout := 0, value_sats := some 100 },
   { from_tx := "h2", from_vout := 0, value_sats := some 80 }]

/-- Whether an `Except` result is a success. -/
def isOkE {A : Type} : Except String A → Bool
  | .ok _ => true
  | .error _ => false

/-- The bipartite edge set accumulated over a batch of fetched transactions,
exactly as the `process_txids` loop builds it. -/
def build_bipartite (txs : List TxJson) : List BipEdge :=
  txs.foldl (fun acc tx => add_bipartite_edges_for_tx tx acc) []

namespace UnionFind

theorem lkp_eq_none_iff (p : State) (a : String) : lkp p a = none ↔ a ∉ keysOf p := by
  induction p with
  | nil => simp [lkp, keysOf]
  | cons kv rest ih =>
    obtain ⟨k, v⟩ := kv
    by_cases h : a = k <;> simp [lkp, keysOf, h, ih]

theorem lkp_mem {p : State} {a b : String} (h : lkp p a = some b) : a ∈ keysOf p := by
  by_contra hmem
  rw [← lkp_eq_none_iff] at hmem
  simp [hmem] at h

theorem lkp_isSome_of_mem {p : State} {a : String} (h : a ∈ keysOf p) :
    ∃ b, lkp p a = some b := by
  cases hl : lkp p a with
  | none => exact absurd ((lkp_eq_none_iff p a).mp hl) (by simp [h])
  | some b => exact ⟨b, rfl⟩

theorem keysOf_append (p q : State) : keysOf (p ++ q) = keysOf p ++ keysOf q :=
  List.map_append _ _ _

theorem lkp_append_single (p : State) (c d x : String) :
    lkp (p ++ [(c, d)]) x =
      match lkp p x with
      | some v => some v
      | none => if x = c then some d else none := by
  induction p with
  | nil => simp [lkp]
  | cons kv rest ih =>
    obtain ⟨k, v⟩ := kv
    by_cases h : x = k <;> simp [lkp, h, ih]

theorem keysOf_setk (p : State) (a r : String) : keysOf (setk p a r) = keysOf p := by
  induction p with
  | nil => rfl
  | cons kv rest ih =>
    obtain ⟨k, v⟩ := kv
    by_cases h : k = a <;> simp [setk, keysOf, h] at ih ⊢ <;> exact ih

theorem setk_length (p : State) (a r : String) : (setk p a r).length = p.length :=
  List.length_map _ _

theorem setk_cons (k v a r : String) (rest : State) :
    setk ((k, v) :: rest) a r = (if k = a then (a, r) else (k, v)) :: setk rest a r := by
  simp only [setk, List.map]

theorem lkp_setk_self {p : State} {a : String} (h : a ∈ keysOf p) (r : String) :
    lkp (setk p a r) a = some r := by
  induction p with
  | nil => simp [keysOf] at h
  | cons kv rest ih =>
    obtain ⟨k, v⟩ := kv
    by_cases hk : k = a
    · rw [setk_cons, if_pos hk]
      simp [lkp]
    · have ha : a ∈ keysOf rest := by
        simp [keysOf] at h
        rcases h with h | h
        · exact absurd h.symm hk
        · simpa [keysOf] using h
      rw [setk_cons, if_neg hk]
      simp only [lkp, if_neg (fun h' : a = k => hk h'.symm)]
      exact ih ha

theorem lkp_setk_ne (p : State) {x a : String} (h : x ≠ a) (r : String) :
    lkp (setk p a r) x = lkp p x := by
  induction p with
  | nil => rfl
  | cons kv rest ih =>
    obtain ⟨k, v⟩ := kv
    by_cases hk : k = a
    · rw [setk_cons, if_pos hk]
      subst hk
      simp [lkp, h, ih]
    · rw [setk_cons, if_neg hk]
      by_cases hx : x = k <;> simp [lkp, hx, ih]

theorem rootN_mono {p : State} : ∀ {n m : ℕ} {a r : String},
    n ≤ m → rootN n p a = some r → rootN m p a = some r := by
  intro n
  induction n with
  | zero => intro m a r _ h; simp [rootN] at h
  | succ n ih =>
    intro m a r hnm h
    obtain ⟨m', rfl⟩ : ∃ m', m = m' + 1 := ⟨m - 1, by omega⟩
    cases hl : lkp p a with
    | none => simp [rootN, hl] at h ⊢; exact h
    | some b =>
      by_cases hba : b = a
      · simp [rootN, hl, hba] at h ⊢; exact h
      · simp [rootN, hl, hba] at h ⊢
        exact ih (by omega) h

theorem rootN_unique {p : State} {n m : ℕ} {a r r' : String}
    (h : rootN n p a = some r) (h' : rootN m p a = some r') : r = r' := by
  have h1 := rootN_mono (Nat.le_max_left n m) h
  have h2 := rootN_mono (Nat.le_max_right n m) h'
  rw [h1] at h2
  exact (Option.some.injEq _ _).mp h2

theorem rootOf_eq_of_rootN {p : State} {n : ℕ} {a r : String}
    (h : rootN n p a = some r) (ht : ∃ s, rootN (p.length + 1) p a = some s) :
    rootOf p a = r := by
  obtain ⟨s, hs⟩ := ht
  rw [rootOf, hs]
  exact (rootN_unique hs h)

theorem rootOf_of_lkp_none {p : State} {a : String} (h : lkp p a = none) :
    rootOf p a = a := by
  rw [rootOf]
  simp [rootN, h]

theorem rootOf_of_lkp_self {p : State} {a : String} (h : lkp p a = some a) :
    rootOf p a = a := by
  rw [rootOf]
  simp [rootN, h]

theorem rootN_total_aux (p : State) (D : String → ℕ)
    (hD : ∀ a b, lkp p a = some b → b ≠ a → D b < D a)
    (hV : ∀ a b, lkp p a = some b → b ∈ keysOf p) :
    ∀ (k : ℕ) (a : String),
      ((keysOf p).toFinset.filter (fun x => D x < D a)).card ≤ k →
      ∃ r, rootN (k + 1) p a = some r := by
  intro k
  induction k with
  | zero =>
    intro a hcard
    cases hl : lkp p a with
    | none => exact ⟨a, by simp [rootN, hl]⟩
    | some b =>
      by_cases hba : b = a
      · exact ⟨a, by simp [rootN, hl, hba]⟩
      · exfalso
        have hb : b ∈ (keysOf p).toFinset.filter (fun x => D x < D a) := by
          simp [List.mem_toFinset]
          exact ⟨hV a b hl, hD a b hl hba⟩
        have : 0 < ((keysOf p).toFinset.filter (fun x => D x < D a)).card :=
          Finset.card_pos.mpr ⟨b, hb⟩
        omega
  | succ k ih =>
    intro a hcard
    cases hl : lkp p a with
    | none => exact ⟨a, by simp [rootN, hl]⟩
    | some b =>
      by_cases hba : b = a
      · exact ⟨a, by simp [rootN, hl, hba]⟩
      · have hDb : D b < D a := hD a b hl hba
        have hb : b ∈ keysOf p := hV a b hl
        have hlt : ((keysOf p).toFinset.filter (fun x => D x < D b)).card <
            ((keysOf p).toFinset.filter (fun x => D x < D a)).card := by
          apply Finset.card_lt_card
          constructor
          · intro x hx
            simp [List.mem_toFinset] at hx ⊢
            exact ⟨hx.1, lt_trans hx.2 hDb⟩
          · intro hsub
            have hbmem : b ∈ (keysOf p).toFinset.filter (fun x => D x < D a) := by
              simp [List.mem_toFinset]
              exact ⟨hb, hDb⟩
            have hmem2 := hsub hbmem
            simp [List.mem_toFinset] at hmem2
        obtain ⟨r, hr⟩ := ih b (by omega)
        exact ⟨r, by simp [rootN, hl, hba]; exact hr⟩

theorem Wf.rootN_total {p : State} (hw : Wf p) (a : String) :
    ∃ r, rootN (p.length + 1) p a = some r := by
  obtain ⟨D, hD⟩ := hw.acyclic
  apply rootN_total_aux p D hD hw.valuesKeys p.length a
  calc ((keysOf p).toFinset.filter (fun x => D x < D a)).card
      ≤ (keysOf p).toFinset.card := Finset.card_filter_le _ _
    _ ≤ (keysOf p).length := (keysOf p).toFinset_card_le
    _ = p.length := List.length_map _ _

theorem rootOf_rootN {p : State} (hw : Wf p) (a : String) :
    rootN (p.length + 1) p a = some (rootOf p a) := by
  obtain ⟨r, hr⟩ := hw.rootN_total a
  rw [rootOf, hr]
  rfl

theorem rootOf_step {p : State} (hw : Wf p) {a b : String}
    (hl : lkp p a = some b) (hba : b ≠ a) : rootOf p a = rootOf p b := by
  have hb := rootOf_rootN hw b
  have hstep : rootN (p.length + 2) p a = some (rootOf p b) := by
    have hu : rootN (p.length + 2) p a = rootN (p.length + 1) p b := by
      simp [rootN, hl, hba]
    rw [hu]
    exact hb
  have ha := rootOf_rootN hw a
  have ha2 : rootN (p.length + 2) p a = some (rootOf p a) :=
    rootN_mono (show p.length + 1 ≤ p.length + 2 by omega) ha
  exact rootN_unique ha2 hstep

theorem rootN_mem {p : State}
    (hV : ∀ a b, lkp p a = some b → b ∈ keysOf p) :
    ∀ {n : ℕ} {a r : String}, rootN n p a = some r → a ∈ keysOf p → r ∈ keysOf p := by
  intro n
  induction n with
  | zero => intro a r h _; simp [rootN] at h
  | succ n ih =>
    intro a r h hmem
    cases hl : lkp p a with
    | none => exact absurd ((lkp_eq_none_iff p a).mp hl) (by simp [hmem])
    | some b =>
      by_cases hba : b = a
      · simp [rootN, hl, hba] at h
        subst h
        exact hmem
      · simp [rootN, hl, hba] at h
        exact ih h (hV a b hl)

theorem rootOf_mem {p : State} (hw : Wf p) {a : String} (h : a ∈ keysOf p) :
    rootOf p a ∈ keysOf p :=
  rootN_mem hw.valuesKeys (rootOf_rootN hw a) h

theorem rootN_isRoot {p : State}
    (hV : ∀ a b, lkp p a = some b → b ∈ keysOf p) :
    ∀ {n : ℕ} {a r : String}, rootN n p a = some r → a ∈ keysOf p →
      lkp p r = some r := by
  intro n
  induction n with
  | zero => intro a r h _; simp [rootN] at h
  | succ n ih =>
    intro a r h hmem
    cases hl : lkp p a with
    | none => exact absurd ((lkp_eq_none_iff p a).mp hl) (by simp [hmem])
    | some b =>
      by_cases hba : b = a
      · simp [rootN, hl, hba] at h
        subst h
        subst hba
        exact hl
      · simp [rootN, hl, hba] at h
        exact ih h (hV a b hl)

theorem rootOf_isRoot {p : State} (hw : Wf p) {a : String} (h : a ∈ keysOf p) :
    lkp p (rootOf p a) = some (rootOf p a) :=
  rootN_isRoot hw.valuesKeys (rootOf_rootN hw a) h

theorem rootN_strictD {p : State} (D : String → ℕ)
    (hD : ∀ a b, lkp p a = some b → b ≠ a → D b < D a) :
    ∀ {n : ℕ} {a r : String}, rootN n p a = some r → r ≠ a → D r < D a := by
  intro n
  induction n with
  | zero => intro a r h _; simp [rootN] at h
  | succ n ih =>
    intro a r h hra
    cases hl : lkp p a with
    | none => simp [rootN, hl] at h; exact absurd h.symm hra
    | some b =>
      by_cases hba : b = a
      · simp [rootN, hl, hba] at h; exact absurd h.symm hra
      · simp [rootN, hl, hba] at h
        by_cases hrb : r = b
        · subst hrb
          exact hD a r hl hba
        · exact lt_trans (ih h hrb) (hD a b hl hba)

theorem rootOf_strict {p : State} (hw : Wf p) {a b : String}
    (hl : lkp p a = some b) (hba : b ≠ a) : rootOf p a ≠ a := by
  obtain ⟨D, hD⟩ := hw.acyclic
  have ha := rootOf_rootN hw a
  have hstep : rootN p.length p b = some (rootOf p a) := by
    have hu : rootN (p.length + 1) p a = rootN p.length p b := by
      simp [rootN, hl, hba]
    rw [hu] at ha
    exact ha
  have hDle : D (rootOf p a) ≤ D b := by
    by_cases h : rootOf p a = b
    · rw [h]
    · exact le_of_lt (rootN_strictD D hD hstep h)
  have hlt : D (rootOf p a) < D a := lt_of_le_of_lt hDle (hD a b hl hba)
  intro h
  rw [h] at hlt
  exact lt_irrefl _ hlt

theorem redirect_wf {q : State} (hw : Wf q) {a r : String}
    (ha : a ∈ keysOf q) (hr : rootOf q a = r) (hra : r ≠ a) : Wf (setk q a r) := by
  constructor
  · rw [keysOf_setk]
    exact hw.nodup
  · intro x y hxy
    rw [keysOf_setk]
    by_cases hx : x = a
    · subst hx
      rw [lkp_setk_self ha] at hxy
      obtain rfl : r = y := by injection hxy
      rw [← hr]
      exact rootOf_mem hw ha
    · rw [lkp_setk_ne q hx] at hxy
      exact hw.valuesKeys x y hxy
  · obtain ⟨D, hD⟩ := hw.acyclic
    refine ⟨D, ?_⟩
    intro x y hxy hyx
    by_cases hx : x = a
    · subst hx
      rw [lkp_setk_self ha] at hxy
      obtain rfl : r = y := by injection hxy
      have hroot : rootN (q.length + 1) q x = some r := by
        rw [← hr]
        exact rootOf_rootN hw x
      exact rootN_strictD D hD hroot hra
    · rw [lkp_setk_ne q hx] at hxy
      exact hD x y hxy hyx

theorem redirect_root {q : State} (hw : Wf q) {a r : String}
    (ha : a ∈ keysOf q) (hr : rootOf q a = r) (hra : r ≠ a) :
    ∀ x, rootOf (setk q a r) x = rootOf q x := by
  have hw' := redirect_wf hw ha hr hra
  have hroot_r : lkp q r = some r := by
    have := rootOf_isRoot hw ha
    rwa [hr] at this
  have haCase : rootOf (setk q a r) a = rootOf q a := by
    have h1 : lkp (setk q a r) a = some r := lkp_setk_self ha r
    have h2 : lkp (setk q a r) r = some r := by
      rw [lkp_setk_ne q hra]
      exact hroot_r
    rw [rootOf_step hw' h1 hra, rootOf_of_lkp_self h2, hr]
  obtain ⟨D, hD⟩ := hw.acyclic
  suffices hgen : ∀ (m : ℕ) (x : String), D x ≤ m → rootOf (setk q a r) x = rootOf q x by
    intro x
    exact hgen (D x) x le_rfl
  intro m
  induction m with
  | zero =>
    intro x hx
    by_cases hxa : x = a
    · subst hxa
      exact haCase
    · cases hl : lkp q x with
      | none =>
        rw [rootOf_of_lkp_none (by rw [lkp_setk_ne q hxa]; exact hl),
          rootOf_of_lkp_none hl]
      | some y =>
        by_cases hyx : y = x
        · subst hyx
          rw [rootOf_of_lkp_self (by rw [lkp_setk_ne q hxa]; exact hl),
            rootOf_of_lkp_self hl]
        · exact absurd (hD x y hl hyx) (by omega)
  | succ m ih =>
    intro x hx
    by_cases hxa : x = a
    · subst hxa
      exact haCase
    · cases hl : lkp q x with
      | none =>
        rw [rootOf_of_lkp_none (by rw [lkp_setk_ne q hxa]; exact hl),
          rootOf_of_lkp_none hl]
      | some y =>
        by_cases hyx : y = x
        · subst hyx
          rw [rootOf_of_lkp_self (by rw [lkp_setk_ne q hxa]; exact hl),
            rootOf_of_lkp_self hl]
        · have hl' : lkp (setk q a r) x = some y := by
            rw [lkp_setk_ne q hxa]
            exact hl
          rw [rootOf_step hw' hl' hyx, rootOf_step hw hl hyx]
          exact ih y (by have := hD x y hl hyx; omega)

theorem union_redirect_wf {q : State} (hw : Wf q) {ra rb : String}
    (hga : lkp q ra = some ra) (hgb : lkp q rb = some rb) (hab : ra ≠ rb) :
    Wf (setk q rb ra) := by
  have hrbmem : rb ∈ keysOf q := lkp_mem hgb
  constructor
  · rw [keysOf_setk]
    exact hw.nodup
  · intro x y hxy
    rw [keysOf_setk]
    by_cases hx : x = rb
    · subst hx
      rw [lkp_setk_self hrbmem] at hxy
      obtain rfl : ra = y := by injection hxy
      exact lkp_mem hga
    · rw [lkp_setk_ne q hx] at hxy
      exact hw.valuesKeys x y hxy
  · obtain ⟨D, hD⟩ := hw.acyclic
    refine ⟨fun x => if rootOf q x = rb then D x + (D ra + 1) else D x, ?_⟩
    intro x y hxy hyx
    by_cases hx : x = rb
    · subst hx
      rw [lkp_setk_self hrbmem] at hxy
      obtain rfl : ra = y := by injection hxy
      have h1 : rootOf q x = x := rootOf_of_lkp_self hgb
      have h2 : rootOf q ra = ra := rootOf_of_lkp_self hga
      simp [h1, h2, hab]
      omega
    · rw [lkp_setk_ne q hx] at hxy
      have hDxy := hD x y hxy hyx
      have hroots : rootOf q x = rootOf q y := rootOf_step hw hxy hyx
      simp only [hroots]
      by_cases hc : rootOf q y = rb <;> simp [hc] <;> omega

theorem union_redirect_root {q : State} (hw : Wf q) {ra rb : String}
    (hga : lkp q ra = some ra) (hgb : lkp q rb = some rb) (hab : ra ≠ rb) :
    ∀ x, rootOf (setk q rb ra) x = if rootOf q x = rb then ra else rootOf q x := by
  have hw' := union_redirect_wf hw hga hgb hab
  have hrbmem : rb ∈ keysOf q := lkp_mem hgb
  have hrbCase : rootOf (setk q rb ra) rb = ra := by
    have h1 : lkp (setk q rb ra) rb = some ra := lkp_setk_self hrbmem ra
    have h2 : lkp (setk q rb ra) ra = some ra := by
      rw [lkp_setk_ne q hab]
      exact hga
    rw [rootOf_step hw' h1 hab, rootOf_of_lkp_self h2]
  obtain ⟨D, hD⟩ := hw.acyclic
  suffices hgen : ∀ (m : ℕ) (x : String), D x ≤ m →
      rootOf (setk q rb ra) x = if rootOf q x = rb then ra else rootOf q x by
    intro x
    exact hgen (D x) x le_rfl
  intro m
  induction m with
  | zero =>
    intro x hx
    by_cases hxb : x = rb
    · subst hxb
      rw [hrbCase, rootOf_of_lkp_self hgb, if_pos rfl]
    · cases hl : lkp q x with
      | none =>
        have hx' : rootOf q x = x := rootOf_of_lkp_none hl
        rw [rootOf_of_lkp_none (by rw [lkp_setk_ne q hxb]; exact hl), hx',
          if_neg hxb]
      | some y =>
        by_cases hyx : y = x
        · have hlx : lkp q x = some x := by rw [hl, hyx]
          have hx' : rootOf q x = x := rootOf_of_lkp_self hlx
          rw [rootOf_of_lkp_self (by rw [lkp_setk_ne q hxb]; exact hlx), hx',
            if_neg hxb]
        · exact absurd (hD x y hl hyx) (by omega)
  | succ m ih =>
    intro x hx
    by_cases hxb : x = rb
    · subst hxb
      rw [hrbCase, rootOf_of_lkp_self hgb, if_pos rfl]
    · cases hl : lkp q x with
      | none =>
        have hx' : rootOf q x = x := rootOf_of_lkp_none hl
        rw [rootOf_of_lkp_none (by rw [lkp_setk_ne q hxb]; exact hl), hx',
          if_neg hxb]
      | some y =>
        by_cases hyx : y = x
        · have hlx : lkp q x = some x := by rw [hl, hyx]
          have hx' : rootOf q x = x := rootOf_of_lkp_self hlx
          rw [rootOf_of_lkp_self (by rw [lkp_setk_ne q hxb]; exact hlx), hx',
            if_neg hxb]
        · have hl' : lkp (setk q rb ra) x = some y := by
            rw [lkp_setk_ne q hxb]
            exact hl
          rw [rootOf_step hw' hl' hyx, rootOf_step hw hl hyx]
          exact ih y (by have := hD x y hl hyx; omega)

theorem rootN_append_fresh {p : State} {a : String} (hl : lkp p a = none) :
    ∀ (n : ℕ) (x : String), rootN n (p ++ [(a, a)]) x = rootN n p x := by
  intro n
  induction n with
  | zero => intro x; rfl
  | succ n ih =>
    intro x
    cases hpx : lkp p x with
    | some b =>
      have hax : lkp (p ++ [(a, a)]) x = some b := by
        rw [lkp_append_single, hpx]
      simp [rootN, hax, hpx, ih]
    | none =>
      by_cases hxa : x = a
      · subst hxa
        have hax : lkp (p ++ [(x, x)]) x = some x := by
          rw [lkp_append_single, hpx]
          simp
        simp [rootN, hax, hpx]
      · have hax : lkp (p ++ [(a, a)]) x = none := by
          rw [lkp_append_single, hpx]
          simp [hxa]
        simp [rootN, hax, hpx]

theorem rootOf_append_fresh {p : State} (hw : Wf p) {a : String} (hl : lkp p a = none) :
    ∀ x, rootOf (p ++ [(a, a)]) x = rootOf p x := by
  intro x
  have h1 := rootOf_rootN hw x
  have h2 : rootN ((p ++ [(a, a)]).length + 1) p x = some (rootOf p x) :=
    rootN_mono (by simp) h1
  have h3 : rootN ((p ++ [(a, a)]).length + 1) (p ++ [(a, a)]) x = some (rootOf p x) := by
    rw [rootN_append_fresh hl]
    exact h2
  rw [rootOf, h3]
  rfl

theorem wf_append_fresh {p : State} (hw : Wf p) {a : String} (hl : lkp p a = none) :
    Wf (p ++ [(a, a)]) := by
  have hmem : a ∉ keysOf p := (lkp_eq_none_iff p a).mp hl
  constructor
  · have hk : keysOf (p ++ [(a, a)]) = keysOf p ++ [a] := by
      rw [keysOf_append]
      rfl
    rw [hk]
    apply List.Nodup.append hw.nodup (List.nodup_singleton a)
    intro x hx hy
    rw [List.mem_singleton] at hy
    subst hy
    exact hmem hx
  · intro x y hxy
    rw [lkp_append_single] at hxy
    rw [keysOf_append]
    cases hpx : lkp p x with
    | some b =>
      rw [hpx] at hxy
      have hby : b = y := by injection hxy
      rw [← hby]
      exact List.mem_append_left _ (hw.valuesKeys x b hpx)
    | none =>
      rw [hpx] at hxy
      by_cases hxa : x = a
      · simp [hxa] at hxy
        subst hxy
        simp [keysOf]
      · simp [hxa] at hxy
  · obtain ⟨D, hD⟩ := hw.acyclic
    refine ⟨D, ?_⟩
    intro x y hxy hyx
    rw [lkp_append_single] at hxy
    cases hpx : lkp p x with
    | some b =>
      rw [hpx] at hxy
      have hby : b = y := by injection hxy
      rw [← hby] at hyx ⊢
      exact hD x b hpx hyx
    | none =>
      rw [hpx] at hxy
      by_cases hxa : x = a
      · simp [hxa] at hxy
        subst hxy
        exact absurd hxa.symm hyx
      · simp [hxa] at hxy

theorem findAux_spec {p : State} (hw : Wf p) :
    ∀ {n : ℕ} {a : String}, (rootN n p a).isSome →
      ∃ pr : String × State, findAux n p a = some pr ∧
        pr.1 = rootOf p a ∧ Wf pr.2 ∧ (∀ x, rootOf pr.2 x = rootOf p x) ∧
        keysOf pr.2 = (if a ∈ keysOf p then keysOf p else keysOf p ++ [a]) ∧
        pr.2.length = (if a ∈ keysOf p then p.length else p.length + 1) := by
  intro n
  induction n with
  | zero => intro a h; simp [rootN] at h
  | succ n ih =>
    intro a h
    cases hl : lkp p a with
    | none =>
      have hmem : a ∉ keysOf p := (lkp_eq_none_iff p a).mp hl
      refine ⟨(a, p ++ [(a, a)]), by simp [findAux, hl], ?_, ?_, ?_, ?_, ?_⟩
      · exact (rootOf_of_lkp_none hl).symm
      · exact wf_append_fresh hw hl
      · exact rootOf_append_fresh hw hl
      · rw [keysOf_append, if_neg hmem]
        rfl
      · simp [hmem]
    | some b =>
      by_cases hba : b = a
      · have hmem : a ∈ keysOf p := lkp_mem hl
        refine ⟨(a, p), by simp [findAux, hl, hba], ?_, hw, fun x => rfl, ?_, ?_⟩
        · exact (rootOf_of_lkp_self (by rw [hl, hba])).symm
        · rw [if_pos hmem]
        · rw [if_pos hmem]
      · have hmem : a ∈ keysOf p := lkp_mem hl
        have hbmem : b ∈ keysOf p := hw.valuesKeys a b hl
        have hn : (rootN n p b).isSome := by
          simpa [rootN, hl, hba] using h
        obtain ⟨⟨r, p1⟩, hfa, hrfst, hwf1, hpres1, hkeys1, hlen1⟩ := ih hn
        rw [if_pos hbmem] at hkeys1 hlen1
        simp only at hrfst
        have hr' : r = rootOf p a := by
          rw [hrfst, ← rootOf_step hw hl hba]
        have ha1 : a ∈ keysOf p1 := by
          rw [hkeys1]
          exact hmem
        have hra : rootOf p1 a = r := by
          rw [hpres1 a, hr']
        have hrne : r ≠ a := by
          rw [hr']
          exact rootOf_strict hw hl hba
        refine ⟨(r, setk p1 a r), ?_, hr', ?_, ?_, ?_, ?_⟩
        · simp [findAux, hl, hba, hfa]
        · exact redirect_wf hwf1 ha1 hra hrne
        · intro x
          rw [redirect_root hwf1 ha1 hra hrne x, hpres1 x]
        · rw [keysOf_setk, hkeys1, if_pos hmem]
        · rw [setk_length, hlen1, if_pos hmem]

theorem find_spec {p : State} (hw : Wf p) (a : String) :
    (find p a).1 = rootOf p a ∧ Wf (find p a).2 ∧
    (∀ x, rootOf (find p a).2 x = rootOf p x) ∧
    keysOf (find p a).2 = (if a ∈ keysOf p then keysOf p else keysOf p ++ [a]) ∧
    (find p a).2.length = (if a ∈ keysOf p then p.length else p.length + 1) := by
  obtain ⟨r0, hr0⟩ := hw.rootN_total a
  obtain ⟨pr, hfa, h1, h2, h3, h4, h5⟩ := findAux_spec hw (a := a) (by rw [hr0]; rfl)
  rw [find, hfa]
  exact ⟨h1, h2, h3, h4, h5⟩

theorem wf_nil : Wf ([] : State) := by
  refine ⟨List.nodup_nil, ?_, ⟨fun _ => 0, ?_⟩⟩
  · intro a b h
    simp [lkp] at h
  · intro a b h
    simp [lkp] at h

theorem union_spec {p : State} (hw : Wf p) (a b : String) :
    Wf (union p a b) ∧
    (∀ x, rootOf (union p a b) x =
      if rootOf p x = rootOf p b then rootOf p a else rootOf p x) ∧
    (∀ x, x ∈ keysOf (union p a b) → x ∈ keysOf p ∨ x = a ∨ x = b) ∧
    (∀ x, x ∈ keysOf p → x ∈ keysOf (union p a b)) := by
  have Fa := find_spec hw a
  have hw1 : Wf (find p a).2 := Fa.2.1
  have Fb := find_spec hw1 b
  have hra : (find p a).1 = rootOf p a := Fa.1
  have hrb : (find (find p a).2 b).1 = rootOf p b := by
    rw [Fb.1, Fa.2.2.1 b]
  have hw2 : Wf (find (find p a).2 b).2 := Fb.2.1
  have hpres2 : ∀ x, rootOf (find (find p a).2 b).2 x = rootOf p x := fun x => by
    rw [Fb.2.2.1 x, Fa.2.2.1 x]
  have hmem_a1 : a ∈ keysOf (find p a).2 := by
    rw [Fa.2.2.2.1]
    by_cases h : a ∈ keysOf p <;> simp [h]
  have hmem_keys2 : ∀ x, x ∈ keysOf (find p a).2 → x ∈ keysOf (find (find p a).2 b).2 := by
    intro x hx
    rw [Fb.2.2.2.1]
    by_cases h : b ∈ keysOf (find p a).2 <;> simp [h, hx]
  have hmem_a2 : a ∈ keysOf (find (find p a).2 b).2 := hmem_keys2 a hmem_a1
  have hmem_b2 : b ∈ keysOf (find (find p a).2 b).2 := by
    rw [Fb.2.2.2.1]
    by_cases h : b ∈ keysOf (find p a).2 <;> simp [h]
  have hkeys_bwd : ∀ x, x ∈ keysOf p → x ∈ keysOf (find (find p a).2 b).2 := by
    intro x hx
    apply hmem_keys2
    rw [Fa.2.2.2.1]
    by_cases h : a ∈ keysOf p <;> simp [h, hx]
  have hkeys_fwd : ∀ x, x ∈ keysOf (find (find p a).2 b).2 →
      x ∈ keysOf p ∨ x = a ∨ x = b := by
    intro x hx
    rw [Fb.2.2.2.1] at hx
    have hx1 : x ∈ keysOf (find p a).2 ∨ x = b := by
      by_cases h : b ∈ keysOf (find p a).2
      · rw [if_pos h] at hx
        exact Or.inl hx
      · rw [if_neg h] at hx
        rcases List.mem_append.mp hx with h1 | h1
        · exact Or.inl h1
        · simp at h1
          exact Or.inr h1
    rcases hx1 with hx1 | hx1
    · rw [Fa.2.2.2.1] at hx1
      by_cases h : a ∈ keysOf p
      · rw [if_pos h] at hx1
        exact Or.inl hx1
      · rw [if_neg h] at hx1
        rcases List.mem_append.mp hx1 with h1 | h1
        · exact Or.inl h1
        · simp at h1
          exact Or.inr (Or.inl h1)
    · exact Or.inr (Or.inr hx1)
  by_cases hab : (find p a).1 = (find (find p a).2 b).1
  · have hu : union p a b = (find (find p a).2 b).2 := by
      simp [union, hab]
    have hroots : rootOf p a = rootOf p b := by
      rw [← hra, ← hrb, hab]
    refine ⟨by rw [hu]; exact hw2, ?_, ?_, ?_⟩
    · intro x
      rw [hu, hpres2 x]
      by_cases hc : rootOf p x = rootOf p b
      · rw [if_pos hc, hc, hroots]
      · rw [if_neg hc]
    · intro x hx
      rw [hu] at hx
      exact hkeys_fwd x hx
    · intro x hx
      rw [hu]
      exact hkeys_bwd x hx
  · have hu : union p a b =
        setk (find (find p a).2 b).2 (find (find p a).2 b).1 (find p a).1 := by
      simp [union, hab]
    have hga : lkp (find (find p a).2 b).2 (find p a).1 = some (find p a).1 := by
      have hx : rootOf (find (find p a).2 b).2 a = (find p a).1 := by
        rw [hpres2 a, hra]
      have hroot := rootOf_isRoot hw2 hmem_a2
      rwa [hx] at hroot
    have hgb : lkp (find (find p a).2 b).2 (find (find p a).2 b).1 =
        some (find (find p a).2 b).1 := by
      have hx : rootOf (find (find p a).2 b).2 b = (find (find p a).2 b).1 := by
        rw [hpres2 b, hrb]
      have hroot := rootOf_isRoot hw2 hmem_b2
      rwa [hx] at hroot
    refine ⟨?_, ?_, ?_, ?_⟩
    · rw [hu]
      exact union_redirect_wf hw2 hga hgb hab
    · intro x
      rw [hu, union_redirect_root hw2 hga hgb hab x, hpres2 x, hra, hrb]
    · intro x hx
      rw [hu, keysOf_setk] at hx
      exact hkeys_fwd x hx
    · intro x hx
      rw [hu, keysOf_setk]
      exact hkeys_bwd x hx

theorem union_wf {p : State} (hw : Wf p) (a b : String) : Wf (union p a b) :=
  (union_spec hw a b).1

theorem union_root {p : State} (hw : Wf p) (a b x : String) :
    rootOf (union p a b) x =
      if rootOf p x = rootOf p b then rootOf p a else rootOf p x :=
  (union_spec hw a b).2.1 x

theorem union_mono {p : State} (hw : Wf p) {x y : String}
    (h : rootOf p x = rootOf p y) (a b : String) :
    rootOf (union p a b) x = rootOf (union p a b) y := by
  rw [union_root hw a b x, union_root hw a b y, h]

theorem union_merges {p : State} (hw : Wf p) (a b : String) :
    rootOf (union p a b) a = rootOf (union p a b) b := by
  rw [union_root hw a b a, union_root hw a b b, if_pos rfl]
  by_cases hc : rootOf p a = rootOf p b
  · rw [if_pos hc]
  · rw [if_neg hc]

theorem wf_foldl {β : Type} (step : State → β → State)
    (hstep : ∀ q x, Wf q → Wf (step q x)) :
    ∀ (l : List β) (p : State), Wf p → Wf (l.foldl step p) := by
  intro l
  induction l with
  | nil => intro p hp; exact hp
  | cons x rest ih =>
    intro p hp
    exact ih (step p x) (hstep p x hp)

theorem foldl_mono {β : Type} (step : State → β → State)
    (hstep_wf : ∀ q x, Wf q → Wf (step q x))
    (hstep_mono : ∀ q z (u v : String), Wf q →
      rootOf q u = rootOf q v → rootOf (step q z) u = rootOf (step q z) v) :
    ∀ (l : List β) (p : State) (u v : String), Wf p →
      rootOf p u = rootOf p v → rootOf (l.foldl step p) u = rootOf (l.foldl step p) v := by
  intro l
  induction l with
  | nil => intro p u v _ h; exact h
  | cons x rest ih =>
    intro p u v hp h
    exact ih (step p x) u v (hstep_wf p x hp) (hstep_mono p x u v hp h)

theorem dget_cons (k1 : String) (v1 : List String) (rest : List (String × List String))
    (r : String) : dget ((k1, v1) :: rest) r = if r = k1 then v1 else dget rest r := rfl

theorem mapAppend_cons (kh : String) (vh : List String)
    (rest : List (String × List String)) (r k : String) :
    ((kh, vh) :: rest).map (fun e => if e.1 = r then (r, e.2 ++ [k]) else e) =
      (if kh = r then (r, vh ++ [k]) else (kh, vh)) ::
        rest.map (fun e => if e.1 = r then (r, e.2 ++ [k]) else e) := by
  simp only [List.map_cons]

theorem dget_map_ne : ∀ (acc : List (String × List String)) {r r' : String} (k : String),
    r' ≠ r →
    dget (acc.map (fun e => if e.1 = r then (r, e.2 ++ [k]) else e)) r' = dget acc r' := by
  intro acc
  induction acc with
  | nil => intro r r' k _; rfl
  | cons e rest ih =>
    obtain ⟨kh, vh⟩ := e
    intro r r' k hne
    rw [mapAppend_cons]
    by_cases hk : kh = r
    · rw [if_pos hk, dget_cons, dget_cons, if_neg (hk ▸ hne),
        if_neg (fun hc : r' = kh => hne (hc.trans hk))]
      exact ih k hne
    · rw [if_neg hk, dget_cons, dget_cons]
      by_cases hr : r' = kh
      · rw [if_pos hr, if_pos hr]
      · rw [if_neg hr, if_neg hr]
        exact ih k hne

theorem dget_map_app : ∀ (acc : List (String × List String)) (r k r' : String),
    (∃ e ∈ acc, e.1 = r) →
    dget (acc.map (fun e => if e.1 = r then (r, e.2 ++ [k]) else e)) r' =
      (if r' = r then dget acc r ++ [k] else dget acc r') := by
  intro acc
  induction acc with
  | nil => intro r k r' h; simp at h
  | cons e rest ih =>
    obtain ⟨kh, vh⟩ := e
    intro r k r' h
    rw [mapAppend_cons]
    by_cases hk : kh = r
    · subst hk
      rw [if_pos rfl]
      simp only [dget_cons]
      by_cases hr : r' = kh
      · simp [hr]
      · simp [hr, dget_map_ne rest k hr]
    · rw [if_neg hk]
      simp only [dget_cons]
      have hrest : ∃ e ∈ rest, e.1 = r := by
        rcases h with ⟨e, he, hkey⟩
        rcases List.mem_cons.mp he with rfl | he_2
        · exact absurd hkey hk
        · exact ⟨e, he_2, hkey⟩
      by_cases hr : r' = kh
      · have hrr : ¬r' = r := fun hc => hk (hc ▸ hr).symm
        simp [hr, hrr, hk]
      · by_cases hrr : r' = r
        · have hkr : ¬r = kh := fun hc => hk hc.symm
          simp [hr, hrr, hkr, ih r k r hrest]
        · simp [hr, hrr, ih r k r' hrest]

theorem dget_append_new : ∀ (acc : List (String × List String)) (r k r' : String),
    (∀ e ∈ acc, e.1 ≠ r) →
    dget (acc ++ [(r, [k])]) r' = (if r' = r then dget acc r ++ [k] else dget acc r') := by
  intro acc
  induction acc with
  | nil =>
    intro r k r' _
    simp only [List.nil_append]
    rw [dget_cons]
    by_cases hr : r' = r <;> simp [dget, hr]
  | cons e rest ih =>
    obtain ⟨kh, vh⟩ := e
    intro r k r' h
    have hkh : kh ≠ r := h (kh, vh) (List.mem_cons_self _ _)
    simp only [List.cons_append, dget_cons]
    rw [ih r k r' (fun e he => h e (List.mem_cons_of_mem _ he))]
    by_cases hr : r' = kh
    · have hrr : ¬r' = r := fun hc => hkh (hr.symm.trans hc)
      simp [hr, hrr, hkh]
    · by_cases hrr : r' = r
      · have hkr : ¬r = kh := fun hc => hkh hc.symm
        simp [hr, hrr, hkr]
      · simp [hr, hrr]

theorem dget_appendAt (acc : List (String × List String)) (r k r' : String) :
    dget (appendAt acc r k) r' = (if r' = r then dget acc r ++ [k] else dget acc r') := by
  by_cases hany : acc.any (fun e => e.1 = r)
  · rw [appendAt, if_pos hany]
    apply dget_map_app
    simpa using hany
  · rw [appendAt, if_neg hany]
    apply dget_append_new
    intro e he
    simp only [List.any_eq_true, decide_eq_true_eq] at hany
    exact fun hc => hany ⟨e, he, hc⟩

theorem groups_fold (p : State) :
    ∀ (ks done : List String) (acc : List (String × List String)) (st : State),
      Wf st → (∀ x, rootOf st x = rootOf p x) → keysOf st = keysOf p →
      (∀ x, x ∈ ks → x ∈ keysOf p) →
      (∀ r, dget acc r = done.filter (fun k => rootOf p k = r)) →
      (∀ r, dget (ks.foldl (fun acc2 k =>
          let fr := find acc2.2 k
          (appendAt acc2.1 fr.1 k, fr.2)) (acc, st)).1 r =
        (done ++ ks).filter (fun k => rootOf p k = r)) ∧
      Wf (ks.foldl (fun acc2 k =>
          let fr := find acc2.2 k
          (appendAt acc2.1 fr.1 k, fr.2)) (acc, st)).2 ∧
      (∀ x, rootOf (ks.foldl (fun acc2 k =>
          let fr := find acc2.2 k
          (appendAt acc2.1 fr.1 k, fr.2)) (acc, st)).2 x = rootOf p x) ∧
      keysOf (ks.foldl (fun acc2 k =>
          let fr := find acc2.2 k
          (appendAt acc2.1 fr.1 k, fr.2)) (acc, st)).2 = keysOf p := by
  intro ks
  induction ks with
  | nil =>
    intro done acc st hst hpres hkeys _ hacc
    simpa using ⟨hacc, hst, hpres, hkeys⟩
  | cons k rest ih =>
    intro done acc st hst hpres hkeys hmem hacc
    have F := find_spec hst k
    have hkmem : k ∈ keysOf st := by
      rw [hkeys]
      exact hmem k (List.mem_cons_self _ _)
    have hfr1 : (find st k).1 = rootOf p k := by
      rw [F.1, hpres k]
    have hwf' : Wf (find st k).2 := F.2.1
    have hpres' : ∀ x, rootOf (find st k).2 x = rootOf p x := fun x => by
      rw [F.2.2.1 x, hpres x]
    have hkeys' : keysOf (find st k).2 = keysOf p := by
      rw [F.2.2.2.1, if_pos hkmem, hkeys]
    have hacc' : ∀ r, dget (appendAt acc (find st k).1 k) r =
        (done ++ [k]).filter (fun x => rootOf p x = r) := by
      intro r
      rw [dget_appendAt, hfr1, List.filter_append]
      by_cases hr : r = rootOf p k
      · subst hr
        rw [if_pos rfl, hacc]
        simp
      · rw [if_neg hr, hacc r]
        have hk2 : List.filter (fun x => decide (rootOf p x = r)) [k] = [] := by
          simp
          exact fun hc => hr hc.symm
        rw [hk2, List.append_nil]
    have hres := ih (done ++ [k]) (appendAt acc (find st k).1 k) (find st k).2
      hwf' hpres' hkeys' (fun x hx => hmem x (List.mem_cons_of_mem _ hx)) hacc'
    simp only [List.foldl_cons]
    refine ⟨?_, hres.2.1, hres.2.2.1, hres.2.2.2⟩
    intro r
    have := hres.1 r
    rwa [List.append_assoc, List.singleton_append] at this

theorem groups_spec {p : State} (hw : Wf p) :
    (∀ r, dget (groups p).1 r = (keysOf p).filter (fun k => rootOf p k = r)) ∧
    Wf (groups p).2 ∧ (∀ x, rootOf (groups p).2 x = rootOf p x) ∧
    keysOf (groups p).2 = keysOf p := by
  have h := groups_fold p (keysOf p) [] [] p hw (fun _ => rfl) rfl
    (fun x hx => hx) (fun r => by simp [dget])
  rw [groups]
  refine ⟨?_, h.2.1, h.2.2.1, h.2.2.2⟩
  intro r
  have := h.1 r
  rwa [List.nil_append] at this


end UnionFind

theorem foldl_union_wf (base : String) (l : List String) {u : UnionFind.State}
    (hu : UnionFind.Wf u) :
    UnionFind.Wf (l.foldl (fun u2 o => UnionFind.union u2 base o) u) :=
  UnionFind.wf_foldl _ (fun q x hq => UnionFind.union_wf hq base x) l u hu

theorem foldl_union_mono (base : String) (l : List String) {u : UnionFind.State}
    (hu : UnionFind.Wf u) {x y : String} (h : UnionFind.rootOf u x = UnionFind.rootOf u y) :
    UnionFind.rootOf (l.foldl (fun u2 o => UnionFind.union u2 base o) u) x =
      UnionFind.rootOf (l.foldl (fun u2 o => UnionFind.union u2 base o) u) y :=
  UnionFind.foldl_mono _ (fun q z hq => UnionFind.union_wf hq base z)
    (fun q z a b hq hab => UnionFind.union_mono hq hab base z) l u x y hu h

theorem foldl_union_merge (base : String) :
    ∀ (l : List String) (u : UnionFind.State), UnionFind.Wf u → ∀ x, x ∈ l →
      UnionFind.rootOf (l.foldl (fun u2 o => UnionFind.union u2 base o) u) x =
        UnionFind.rootOf (l.foldl (fun u2 o => UnionFind.union u2 base o) u) base := by
  intro l
  induction l with
  | nil => intro u _ x hx; simp at hx
  | cons o rest ih =>
    intro u hu x hx
    simp only [List.foldl_cons]
    have hu1 : UnionFind.Wf (UnionFind.union u base o) := UnionFind.union_wf hu base o
    rcases List.mem_cons.mp hx with rfl | hx2
    · exact foldl_union_mono base rest hu1 (UnionFind.union_merges hu base x).symm
    · exact ih (UnionFind.union u base o) hu1 x hx2

theorem foldl_union_keys (base : String) :
    ∀ (l : List String) (u : UnionFind.State), UnionFind.Wf u → ∀ x,
      x ∈ UnionFind.keysOf (l.foldl (fun u2 o => UnionFind.union u2 base o) u) →
      x ∈ UnionFind.keysOf u ∨ x = base ∨ x ∈ l := by
  intro l
  induction l with
  | nil => intro u _ x hx; exact Or.inl hx
  | cons o rest ih =>
    intro u hu x hx
    simp only [List.foldl_cons] at hx
    have hu1 : UnionFind.Wf (UnionFind.union u base o) := UnionFind.union_wf hu base o
    rcases ih (UnionFind.union u base o) hu1 x hx with h1 | h1 | h1
    · rcases (UnionFind.union_spec hu base o).2.2.1 x h1 with h2 | h2 | h2
      · exact Or.inl h2
      · exact Or.inr (Or.inl h2)
      · exact Or.inr (Or.inr (by simp [h2]))
    · exact Or.inr (Or.inl h1)
    · exact Or.inr (Or.inr (by simp [h1]))

theorem batch_union_tx_wf {u : UnionFind.State} (hu : UnionFind.Wf u) (tx : TxJson) :
    UnionFind.Wf (batch_union_tx u tx) := by
  unfold batch_union_tx
  split
  · exact foldl_union_wf _ _ hu
  · exact hu

theorem batch_union_tx_mono {q : UnionFind.State} (hq : UnionFind.Wf q) (tx : TxJson)
    {x y : String} (h : UnionFind.rootOf q x = UnionFind.rootOf q y) :
    UnionFind.rootOf (batch_union_tx q tx) x = UnionFind.rootOf (batch_union_tx q tx) y := by
  unfold batch_union_tx
  split
  · exact foldl_union_mono _ _ hq h
  · exact h

theorem cluster_union_tx_wf {u : UnionFind.State} (hu : UnionFind.Wf u) (tx : TxJson) :
    UnionFind.Wf (cluster_union_tx u tx) := by
  unfold cluster_union_tx
  split
  · exact foldl_union_wf _ _ hu
  · exact hu

theorem batch_uf_wf (txs : List TxJson) : UnionFind.Wf (txs.foldl batch_union_tx []) :=
  UnionFind.wf_foldl batch_union_tx (fun q tx hq => batch_union_tx_wf hq tx) txs []
    UnionFind.wf_nil

theorem cluster_step1_wf (txs : List TxJson) : UnionFind.Wf (cluster_step1_uf txs) :=
  UnionFind.wf_foldl cluster_union_tx (fun q tx hq => cluster_union_tx_wf hq tx) txs []
    UnionFind.wf_nil

theorem cluster_union_tx_keys {u : UnionFind.State} (hu : UnionFind.Wf u) (tx : TxJson) :
    ∀ x, x ∈ UnionFind.keysOf (cluster_union_tx u tx) →
      x ∈ UnionFind.keysOf u ∨
        (x ∈ known_inputs tx ∧ 2 ≤ (known_inputs tx).length) := by
  intro x
  unfold cluster_union_tx
  split
  next base o rest heq =>
    intro hx
    rcases foldl_union_keys base (o :: rest) u hu x hx with h1 | h1 | h1
    · exact Or.inl h1
    · exact Or.inr ⟨by rw [heq, h1]; exact List.mem_cons_self _ _, by rw [heq]; simp⟩
    · exact Or.inr ⟨by rw [heq]; exact List.mem_cons_of_mem _ h1, by rw [heq]; simp⟩
  next =>
    intro hx
    exact Or.inl hx

theorem cluster_fold_keys :
    ∀ (txs : List TxJson) (u : UnionFind.State), UnionFind.Wf u → ∀ x,
      x ∈ UnionFind.keysOf (txs.foldl cluster_union_tx u) →
      x ∈ UnionFind.keysOf u ∨
        ∃ tx, tx ∈ txs ∧ x ∈ known_inputs tx ∧ 2 ≤ (known_inputs tx).length := by
  intro txs
  induction txs with
  | nil => intro u _ x hx; exact Or.inl hx
  | cons tx rest ih =>
    intro u hu x hx
    simp only [List.foldl_cons] at hx
    rcases ih (cluster_union_tx u tx) (cluster_union_tx_wf hu tx) x hx with h1 | ⟨tx2, h2⟩
    · rcases cluster_union_tx_keys hu tx x h1 with h2 | h2
      · exact Or.inl h2
      · exact Or.inr ⟨tx, List.mem_cons_self _ _, h2⟩
    · exact Or.inr ⟨tx2, List.mem_cons_of_mem _ h2.1, h2.2⟩

theorem cluster_candidates_mono (seed : String) (txs : List TxJson) :
    ∀ (l : List TxJson) (acc : List CandTagged) (c : CandTagged), c ∈ acc →
      c ∈ l.foldl (fun acc2 tx =>
        if tx.txid ∈ seed_in_input_txids seed txs then
          acc2 ++ ((detect_change_candidates_for_tx tx).filter
            (fun c2 => (15/100 : ℚ) ≤ c2.score)).map
            (fun c2 => { cand := c2, source_tx := tx.txid })
        else acc2) acc := by
  intro l
  induction l with
  | nil => intro acc c hc; exact hc
  | cons tx rest ih =>
    intro acc c hc
    simp only [List.foldl_cons]
    apply ih
    by_cases hmem : tx.txid ∈ seed_in_input_txids seed txs
    · rw [if_pos hmem]
      exact List.mem_append_left _ hc
    · rw [if_neg hmem]
      exact hc

theorem cluster_candidates_sound (seed : String) (txs : List TxJson) :
    ∀ (l : List TxJson) (acc : List CandTagged),
      (∀ c ∈ acc, (15/100 : ℚ) ≤ c.cand.score ∧ c.source_tx ∈ seed_in_input_txids seed txs) →
      ∀ c, c ∈ l.foldl (fun acc2 tx =>
        if tx.txid ∈ seed_in_input_txids seed txs then
          acc2 ++ ((detect_change_candidates_for_tx tx).filter
            (fun c2 => (15/100 : ℚ) ≤ c2.score)).map
            (fun c2 => { cand := c2, source_tx := tx.txid })
        else acc2) acc →
      (15/100 : ℚ) ≤ c.cand.score ∧ c.source_tx ∈ seed_in_input_txids seed txs := by
  intro l
  induction l with
  | nil => intro acc hacc c hc; exact hacc c hc
  | cons tx rest ih =>
    intro acc hacc c hc
    simp only [List.foldl_cons] at hc
    apply ih _ _ c hc
    intro c2 hc2
    by_cases hmem : tx.txid ∈ seed_in_input_txids seed txs
    · rw [if_pos hmem] at hc2
      rcases List.mem_append.mp hc2 with h1 | h1
      · exact hacc c2 h1
      · simp only [List.mem_map, List.mem_filter] at h1
        obtain ⟨c3, ⟨_, hscore⟩, rfl⟩ := h1
        refine ⟨by simpa using hscore, hmem⟩
    · rw [if_neg hmem] at hc2
      exact hacc c2 hc2

theorem cluster_candidates_complete (seed : String) (txs : List TxJson) :
    ∀ (l : List TxJson) (acc : List CandTagged) (tx : TxJson), tx ∈ l →
      tx.txid ∈ seed_in_input_txids seed txs →
      ∀ c, c ∈ detect_change_candidates_for_tx tx → (15/100 : ℚ) ≤ c.score →
      ({ cand := c, source_tx := tx.txid } : CandTagged) ∈ l.foldl (fun acc2 tx2 =>
        if tx2.txid ∈ seed_in_input_txids seed txs then
          acc2 ++ ((detect_change_candidates_for_tx tx2).filter
            (fun c2 => (15/100 : ℚ) ≤ c2.score)).map
            (fun c2 => { cand := c2, source_tx := tx2.txid })
        else acc2) acc := by
  intro l
  induction l with
  | nil => intro acc tx htx; simp at htx
  | cons tx0 rest ih =>
    intro acc tx htx hmem c hc hscore
    simp only [List.foldl_cons]
    rcases List.mem_cons.mp htx with rfl | htx2
    · apply cluster_candidates_mono
      rw [if_pos hmem]
      apply List.mem_append_right
      simp only [List.mem_map, List.mem_filter]
      exact ⟨c, ⟨hc, by simpa using hscore⟩, rfl⟩
    · exact ih _ tx htx2 hmem c hc hscore

theorem runUFOps_wf (ops : List UFOp) : UnionFind.Wf (runUFOps ops) :=
  UnionFind.wf_foldl _
    (fun q op hq => by
      cases op with
      | find a => exact (UnionFind.find_spec hq a).2.1
      | union a b => exact UnionFind.union_wf hq a b)
    ops [] UnionFind.wf_nil

/-- C10: starting from a freshly constructed `UnionFind`, every sequence of
`find` and `union` calls preserves the acyclic-forest shape of the parent
map — iterating the parent pointer from any key reaches a self-parenting
root in finitely many steps — and `find` (with the canonical fuel) succeeds
on every argument, i.e. is a total, terminating operation. -/
theorem C10_unionfind_forest_total (ops : List UFOp) :
    (∀ a, a ∈ UnionFind.keysOf (runUFOps ops) →
      ∃ n r, UnionFind.rootN n (runUFOps ops) a = some r ∧
        UnionFind.lkp (runUFOps ops) r = some r) ∧
    (∀ a, (UnionFind.findAux ((runUFOps ops).length + 1) (runUFOps ops) a).isSome = true) := by
  have hw := runUFOps_wf ops
  constructor
  · intro a ha
    exact ⟨(runUFOps ops).length + 1, UnionFind.rootOf (runUFOps ops) a,
      UnionFind.rootOf_rootN hw a, UnionFind.rootOf_isRoot hw ha⟩
  · intro a
    obtain ⟨r0, hr0⟩ := hw.rootN_total a
    obtain ⟨pr, hfa, _⟩ := UnionFind.findAux_spec hw (a := a) (by rw [hr0]; rfl)
    rw [hfa]
    rfl

/-- Witness for C10 at a concrete call sequence. -/
theorem C10_unionfind_forest_total_witness :
    (∃ n r, UnionFind.rootN n (runUFOps [UFOp.union "a" "b", UFOp.find "c"]) "b" = some r ∧
      UnionFind.lkp (runUFOps [UFOp.union "a" "b", UFOp.find "c"]) r = some r) ∧
    (UnionFind.findAux ((runUFOps [UFOp.union "a" "b", UFOp.find "c"]).length + 1)
      (runUFOps [UFOp.union "a" "b", UFOp.find "c"]) "z").isSome = true :=
  ⟨(C10_unionfind_forest_total [UFOp.union "a" "b", UFOp.find "c"]).1 "b" (by decide),
   (C10_unionfind_forest_total [UFOp.union "a" "b", UFOp.find "c"]).2 "z"⟩

/-- C2 counterexample: in the batch clusterer (`process_txids`), a
transaction with one known input address `A` and one input with an unknown
prevout address merges `A` with the `UNKNOWN_INPUT` sentinel: the unknown
input does participate in a merge, contradicting the claim. -/
theorem C2_counterexample_unknown_input_merged :
    UnionFind.rootOf ([exTxC2].foldl batch_union_tx []) "A" =
      UnionFind.rootOf ([exTxC2].foldl batch_union_tx []) "UNKNOWN_INPUT" ∧
    "UNKNOWN_INPUT" ∈ UnionFind.keysOf ([exTxC2].foldl batch_union_tx []) ∧
    ((process_txids sqrtZero exEsploraC2 ["u"]).toOption.map
      (fun r => (UnionFind.rootOf r.uf "A", UnionFind.rootOf r.uf "UNKNOWN_INPUT"))) =
      some ("A", "A") := by
  refine ⟨by decide, by decide, ?_⟩
  rfl

/-- C2 amended: in the seed-address clusterer every union-find member is a
known input address of a transaction with at least two known input addresses
(unknown inputs are skipped and single-input transactions contribute no
unions); in the batch clusterer every input contributes an address — a
missing prevout address is replaced by the `UNKNOWN_INPUT` sentinel — and for
each transaction with at least two inputs all of its (sentinel-defaulted)
input addresses end up in one partition. -/
theorem C2_amended_unions (txs : List TxJson) :
    (∀ x, x ∈ UnionFind.keysOf (cluster_step1_uf txs) →
      ∃ tx, tx ∈ txs ∧ x ∈ known_inputs tx ∧ 2 ≤ (known_inputs tx).length) ∧
    (∀ tx, tx ∈ txs → 2 ≤ tx.vin.length →
      ∀ a b, a ∈ batch_inputs tx → b ∈ batch_inputs tx →
        UnionFind.rootOf (txs.foldl batch_union_tx []) a =
          UnionFind.rootOf (txs.foldl batch_union_tx []) b) := by
  constructor
  · intro x hx
    rcases cluster_fold_keys txs [] UnionFind.wf_nil x hx with h | h
    · simp [UnionFind.keysOf] at h
    · exact h
  · intro tx htx hlen a b ha hb
    obtain ⟨l1, l2, rfl⟩ := List.append_of_mem htx
    rw [List.foldl_append, List.foldl_cons]
    have hwu0 : UnionFind.Wf (l1.foldl batch_union_tx []) := batch_uf_wf l1
    have hwu1 : UnionFind.Wf (batch_union_tx (l1.foldl batch_union_tx []) tx) :=
      batch_union_tx_wf hwu0 tx
    have hlen2 : 2 ≤ (batch_inputs tx).length := by
      rw [batch_inputs, List.length_map]
      exact hlen
    obtain ⟨base, o, rest, hbi⟩ : ∃ base o rest, batch_inputs tx = base :: o :: rest := by
      rcases hb2 : batch_inputs tx with _ | ⟨x, _ | ⟨y, ys⟩⟩
      · rw [hb2] at hlen2; simp at hlen2
      · rw [hb2] at hlen2; simp at hlen2
      · exact ⟨x, y, ys, rfl⟩
    have hstep : batch_union_tx (l1.foldl batch_union_tx []) tx =
        (o :: rest).foldl (fun u2 x => UnionFind.union u2 base x)
          (l1.foldl batch_union_tx []) := by
      simp only [batch_union_tx, hbi]
    have merge_all : ∀ x, x ∈ batch_inputs tx →
        UnionFind.rootOf (batch_union_tx (l1.foldl batch_union_tx []) tx) x =
          UnionFind.rootOf (batch_union_tx (l1.foldl batch_union_tx []) tx) base := by
      intro x hx
      rw [hbi] at hx
      rcases List.mem_cons.mp hx with rfl | hx2
      · rfl
      · rw [hstep]
        exact foldl_union_merge base (o :: rest) _ hwu0 x hx2
    have hab1 : UnionFind.rootOf (batch_union_tx (l1.foldl batch_union_tx []) tx) a =
        UnionFind.rootOf (batch_union_tx (l1.foldl batch_union_tx []) tx) b := by
      rw [merge_all a ha, merge_all b hb]
    exact UnionFind.foldl_mono batch_union_tx (fun q t hq => batch_union_tx_wf hq t)
      (fun q t x y hq h => batch_union_tx_mono hq t h) l2 _ a b hwu1 hab1

/-- Witness for the amended C2 at concrete inputs. -/
theorem C2_amended_unions_witness :
    (∃ tx, tx ∈ [exTxC4] ∧ "S" ∈ known_inputs tx ∧ 2 ≤ (known_inputs tx).length) ∧
    UnionFind.rootOf ([exTxC2].foldl batch_union_tx []) "UNKNOWN_INPUT" =
      UnionFind.rootOf ([exTxC2].foldl batch_union_tx []) "A" :=
  ⟨(C2_amended_unions [exTxC4]).1 "S" (by decide),
   (C2_amended_unions [exTxC2]).2 exTxC2 (by decide) (by decide)
     "UNKNOWN_INPUT" "A" (by decide) (by decide)⟩

theorem tz10_of_not (n : ℕ) (h : ¬ (n ≠ 0 ∧ n % 10 = 0)) : tz10 n = 0 := by
  rw [tz10]; simp [h]

theorem decimalLen_123 : decimalLen 123 = 8 := by
  have h : tz10 123 = 0 := tz10_of_not 123 (by norm_num)
  simp [decimalLen, h]

theorem majorityOf_ww : majorityOf ["w", "w"] = some "w" := by decide

theorem pyRoundTo_920 : pyRoundTo (9/20 : ℚ) 3 = 9/20 := by
  have h1 : ((9:ℚ)/20) * (10:ℚ)^(3:ℕ) = 450 := by norm_num
  have h2 : pyRound 450 = 450 := by
    simp only [pyRound]
    norm_num
  simp only [pyRoundTo, h1, h2]
  norm_num

theorem detailed_main_exTxC4 :
    detailed_main exTxC4 =
      [{ vout_index := 0, address := "E", value_sats := 123, score := 9/20, flags := ["high_decimal", "script_match", "smaller_than_inputs"] }] := by
  have htz : tz10 (Int.toNat 123) = 0 := tz10_of_not _ (by decide)
  have hw : ("w" = "") = False := by simp
  have hE : ("E" = "") = False := by simp
  simp only [detailed_main, simpleVinTypes, detailedTotalIn, exTxC4, exTx, exInput, exOutput,
    List.map, pyOrInt, Option.getD, List.filterMap, majorityOf, List.enum]
  norm_num [majorityOf_ww, decimalLen_123, trailing_zeros_in_sats, htz, hw, hE, pyOrStr,
    strTruthy, pyRoundTo_920, List.Nodup, List.enumFrom]

theorem detect_exTxC4 : detect_change_candidates_for_tx exTxC4 = [exCandRecC4] := by
  rw [detect_change_candidates_for_tx, detailed_main_exTxC4]
  simp only [sole_positive_boost_detailed, List.filter, List.map]
  norm_num [exCandRecC4]

theorem cluster_cands_exTxC4 : cluster_candidates "S" [exTxC4] = [exCandC4] := by
  have hseed : seed_in_input_txids "S" [exTxC4] = ["x1"] := by decide
  simp only [cluster_candidates, List.foldl, hseed, detect_exTxC4]
  norm_num [exCandRecC4, exCandC4, exTxC4, exTx, List.filter]

/-- C4: the driver's reported member list equals the union-find partition of
the seed (from common-input unions alone) plus the seed itself; collected
change candidates all score at least 0.15 and are tagged with a seed-spending
source transaction; every qualifying output is collected; and none of this
feeds back into the member list, which is computed from the common-input
union-find only. -/
theorem C4_cluster_members_candidates (seed : String) (txs : List TxJson) :
    (cluster_from_address_core seed txs).members = specClusterMembers seed txs ∧
    (∀ c, c ∈ (cluster_from_address_core seed txs).candidates →
      (15/100 : ℚ) ≤ c.cand.score ∧ c.source_tx ∈ seed_in_input_txids seed txs) ∧
    (∀ tx, tx ∈ txs → tx.txid ∈ seed_in_input_txids seed txs →
      ∀ c, c ∈ detect_change_candidates_for_tx tx → (15/100 : ℚ) ≤ c.score →
        ({ cand := c, source_tx := tx.txid } : CandTagged) ∈
          (cluster_from_address_core seed txs).candidates) := by
  have hw : UnionFind.Wf (cluster_step1_uf txs) := cluster_step1_wf txs
  have G := UnionFind.groups_spec hw
  refine ⟨?_, ?_, ?_⟩
  · have hfr : (UnionFind.find (UnionFind.groups (cluster_step1_uf txs)).2 seed).1 =
        UnionFind.rootOf (cluster_step1_uf txs) seed := by
      rw [(UnionFind.find_spec G.2.1 seed).1, G.2.2.1 seed]
    simp only [cluster_from_address_core, specClusterMembers]
    rw [hfr, G.1 (UnionFind.rootOf (cluster_step1_uf txs) seed)]
  · intro c hc
    have hc2 : c ∈ cluster_candidates seed txs := hc
    rw [cluster_candidates] at hc2
    exact cluster_candidates_sound seed txs txs [] (by intro c2 hc2; simp at hc2) c hc2
  · intro tx htx hmem c hc hscore
    have h := cluster_candidates_complete seed txs txs [] tx htx hmem c hc hscore
    exact h

/-- Witness for C4 at a concrete seed and history. -/
theorem C4_cluster_members_candidates_witness :
    (cluster_from_address_core "S" [exTxC4]).members = specClusterMembers "S" [exTxC4] ∧
    ((15/100 : ℚ) ≤ exCandC4.cand.score ∧ "x1" ∈ seed_in_input_txids "S" [exTxC4]) ∧
    exCandC4 ∈ (cluster_from_address_core "S" [exTxC4]).candidates := by
  refine ⟨(C4_cluster_members_candidates "S" [exTxC4]).1, ?_, ?_⟩
  · exact (C4_cluster_members_candidates "S" [exTxC4]).2.1 exCandC4
      (by simp [cluster_from_address_core, cluster_cands_exTxC4])
  · exact (C4_cluster_members_candidates "S" [exTxC4]).2.2 exTxC4 (by simp) (by decide)
      exCandC4.cand (by simp [detect_exTxC4, exCandC4]) (by norm_num [exCandC4, exCandRecC4])

/-- C6: the tracer does not fail fast on negative indices.  A negative output
index is accepted by the `cur_vout >= len(outspends)` guard and wraps
Python-style in `outspends[cur_vout]` (here vout `-1` resolves to the last
output, value 7, and the trace completes normally), and a negative hop count
makes `range(max_hops)` empty, returning an empty successful trace.  Neither
negative input produces an input-validation error. -/
theorem C6_negative_indices_not_failfast :
    trace_peel_chain exEsploraC6 "T" (-1) 8 false =
      .ok [{ from_tx := "T"
             from_vout := -1
             value_sats := some 7
             spent := some false
             raw_outspend := some { value := some 7, spent := false } }] ∧
    trace_peel_chain exEsploraC6 "T" 0 (-5) false = .ok [] :=
  ⟨rfl, rfl⟩

/-- C9 counterexample: on a chain with fewer than two positive numeric values
the scorer reports score 0 with reason `not_enough_numeric_hops`, not the
reason string `insufficient data` stated by the specification. -/
theorem C9_counterexample_reason_string :
    (compute_peel_score sqrtZero exEsploraDead []).1 = 0 ∧
    (compute_peel_score sqrtZero exEsploraDead []).2.reason =
      some "not_enough_numeric_hops" ∧
    (compute_peel_score sqrtZero exEsploraDead []).2.reason ≠
      some "insufficient data" := by
  refine ⟨rfl, rfl, by decide⟩

/-- C9: with fewer than two strictly positive numeric hop values the peel
scorer returns score 0 and the reason `not_enough_numeric_hops` (the reason
string differs from the specification's `insufficient data`); with two or
more such values no reason is reported. -/
theorem C9_peel_low_data_reason (F : FloatOps) (E : Esplora) (chain : List Hop) :
    ((peelVals chain).length < 2 →
      compute_peel_score F E chain =
        (0, { n_hops_total := chain.length
              n_numeric_hops := (peelVals chain).length
              value_sources := peelSources chain
              reason := some "not_enough_numeric_hops" })) ∧
    (2 ≤ (peelVals chain).length →
      (compute_peel_score F E chain).2.reason = none ∧
      (compute_peel_score F E chain).2.reason ≠ some "insufficient data") := by
  constructor
  · intro h
    simp only [compute_peel_score, if_pos h]
  · intro h
    have h2 : ¬ (peelVals chain).length < 2 := by omega
    simp [compute_peel_score, if_neg h2]

/-- Witness for C9 at a concrete empty and a concrete two-hop chain. -/
theorem C9_peel_low_data_reason_witness :
    ((peelVals ([] : List Hop)).length < 2 ∧
      compute_peel_score sqrtZero exEsploraDead [] =
        (0, { n_hops_total := 0
              n_numeric_hops := 0
              value_sources := []
              reason := some "not_enough_numeric_hops" })) ∧
    (2 ≤ (peelVals exChainC9).length ∧
      (compute_peel_score sqrtZero exEsploraDead exChainC9).2.reason = none) := by
  constructor
  · exact ⟨by decide, (C9_peel_low_data_reason sqrtZero exEsploraDead []).1 (by decide)⟩
  · exact ⟨by decide,
      ((C9_peel_low_data_reason sqrtZero exEsploraDead exChainC9).2 (by decide)).1⟩

/-- Invariant carried along the value-resolution chain: an untagged state
holds a truthy value, and no step ever assigns the tag `unknown`. -/
def ResolvedInv (r : Option Int × Option String) : Prop :=
  (r.2 = none → intTruthy r.1 = true) ∧ r.2 ≠ some "unknown"

theorem resolveStep2_inv (E : Esplora) (cur_tx : String) (cur_vout : Int)
    (v1 : Option Int) (force : Bool) :
    ResolvedInv (resolveStep2 E cur_tx cur_vout v1 force) := by
  unfold ResolvedInv resolveStep2
  split
  · split
    · split
      · split <;> simp
      · simp
    · simp
  · rename_i h
    simp only [Bool.or_eq_true, not_or, Bool.not_eq_true] at h
    simp [h.2]

theorem resolveStep3_inv (outp : OutspendR) (r2 : Option Int × Option String)
    (h : ResolvedInv r2) : ResolvedInv (resolveStep3 outp r2) := by
  unfold resolveStep3
  split
  · rename_i hc
    exact absurd (h.1 hc.2) (by simp [hc.1])
  · exact h

theorem resolveStep4_inv (E : Esplora) (outp : OutspendR)
    (r3 : Option Int × Option String)
    (h : ResolvedInv r3) : ResolvedInv (resolveStep4 E outp r3) := by
  unfold resolveStep4
  split
  · split
    · split
      · dsimp only
        split
        · exact ⟨by simp, by simp⟩
        · exact h
      · exact ⟨by simp, by simp⟩
    · exact h
  · exact h

theorem resolveFinal_inv (r4 : Option Int × Option String) (h : ResolvedInv r4) :
    (resolveFinal r4).2 ≠ some "unknown" := by
  obtain ⟨v4, s4⟩ := r4
  rcases v4 with _ | v
  · have hs : s4 ≠ none := fun hn => by simpa [intTruthy] using h.1 hn
    simp only [resolveFinal, if_neg hs]
    exact h.2
  · exact h.2

/-- C5 counterexample: for an outspend with no value field whose source
output declares value 0, the tracer does not stop at step (2) with the
declared value: the falsy 0 read under the `tx_vout` tag falls through to
the spending transaction's largest output (value 5, tag
`proxy_spent_largest`), while the chain exactly as the specification words
it stops at (2) with `(0, tx_vout)`. -/
theorem C5_counterexample_zero_declared_value :
    resolveHopValue exEsploraC5 "CT" 0 exOutspendC5 false =
      (5, some "proxy_spent_largest") ∧
    claimedResolve exEsploraC5 "CT" 0 exOutspendC5 false = (0, some "tx_vout") ∧
    resolveHopValue exEsploraC5 "CT" 0 exOutspendC5 false ≠
      claimedResolve exEsploraC5 "CT" 0 exOutspendC5 false := by
  refine ⟨rfl, rfl, by decide⟩

/-- C5: the per-hop value resolution is a fallback chain driven by Python
truthiness, not presence: (1) without forced lookup a present *nonzero*
outspend value wins, with no provenance tag; (2) forced mode or a falsy
value reads the source transaction's declared output value, tag `tx_vout`;
(3) a falsy declared value (not just an absent one) falls through, for a
spent output, to the largest output of the spending transaction, tag
`proxy_spent_largest`; (4) the specification's final `unknown` provenance is
unreachable: every fall-through path has already assigned a tag. -/
theorem C5_value_fallback_chain (E : Esplora) (cur_tx : String) (cur_vout : Int)
    (outp : OutspendR) (force : Bool) :
    (∀ v : Int, force = false → outp.value = some v → v ≠ 0 →
      resolveHopValue E cur_tx cur_vout outp force = (v, none)) ∧
    (∀ txj vo, (force = true ∨ intTruthy outp.value = false) →
      E.get_tx_json cur_tx = .ok txj →
      cur_vout < (txj.vout.length : Int) →
      pyListGet txj.vout cur_vout = .ok vo →
      pyOrInt vo.value ≠ 0 →
      resolveHopValue E cur_tx cur_vout outp force = (pyOrInt vo.value, some "tx_vout")) ∧
    (∀ txj vo sp, (force = true ∨ intTruthy outp.value = false) →
      E.get_tx_json cur_tx = .ok txj →
      cur_vout < (txj.vout.length : Int) →
      pyListGet txj.vout cur_vout = .ok vo →
      pyOrInt vo.value = 0 →
      outp.spent = true → strTruthy outp.txid = true →
      E.get_tx_json (outp.txid.getD "") = .ok sp →
      0 < pyMaxD0 (sp.vout.map (fun o => pyOrInt o.value)) →
      resolveHopValue E cur_tx cur_vout outp force =
        (pyMaxD0 (sp.vout.map (fun o => pyOrInt o.value)), some "proxy_spent_largest")) ∧
    (resolveHopValue E cur_tx cur_vout outp force).2 ≠ some "unknown" := by
  refine ⟨?_, ?_, ?_, ?_⟩
  · intro v hf hval hv
    have hvt : intTruthy (some v) = true := by simp [intTruthy, hv]
    rw [resolveHopValue, hval]
    rw [show resolveStep2 E cur_tx cur_vout (some v) force = (some v, none) by
      simp [resolveStep2, hf, hvt]]
    rw [show resolveStep3 outp (some v, none) = (some v, none) by
      simp [resolveStep3, hvt]]
    rw [show resolveStep4 E outp (some v, none) = (some v, none) by
      simp [resolveStep4, hvt]]
    simp [resolveFinal]
  · intro txj vo hcond htx hlt hget hne
    have h2 : resolveStep2 E cur_tx cur_vout outp.value force =
        (some (pyOrInt vo.value), some "tx_vout") := by
      have hc : (force = true ∨ intTruthy outp.value = false) := hcond
      simp only [resolveStep2, if_pos hc, htx, if_pos hlt, hget]
    have hvt : intTruthy (some (pyOrInt vo.value)) = true := by simp [intTruthy, hne]
    rw [resolveHopValue, h2]
    rw [show resolveStep3 outp (some (pyOrInt vo.value), some "tx_vout") =
        (some (pyOrInt vo.value), some "tx_vout") by simp [resolveStep3]]
    rw [show resolveStep4 E outp (some (pyOrInt vo.value), some "tx_vout") =
        (some (pyOrInt vo.value), some "tx_vout") by simp [resolveStep4, hvt]]
    simp [resolveFinal]
  · intro txj vo sp hcond htx hlt hget hzero hspent httx hsp hproxy
    have h2 : resolveStep2 E cur_tx cur_vout outp.value force =
        (some 0, some "tx_vout") := by
      simp only [resolveStep2, if_pos hcond, htx, if_pos hlt, hget, hzero]
    rw [resolveHopValue, h2]
    rw [show resolveStep3 outp (some 0, some "tx_vout") = (some 0, some "tx_vout") by
      simp [resolveStep3]]
    have h4 : resolveStep4 E outp (some 0, some "tx_vout") =
        (some (pyMaxD0 (sp.vout.map (fun o => pyOrInt o.value))),
         some "proxy_spent_largest") := by
      simp only [resolveStep4, intTruthy]
      rw [if_pos (by simp), if_pos ⟨hspent, httx⟩, hsp]
      simp [if_pos hproxy]
    rw [h4]
    simp [resolveFinal]
  · exact resolveFinal_inv _ (resolveStep4_inv E outp _ (resolveStep3_inv outp _
      (resolveStep2_inv E cur_tx cur_vout outp.value force)))

/-- Witness for C5: the four chain cases at concrete providers and
outspends. -/
theorem C5_value_fallback_chain_witness :
    resolveHopValue exEsploraC5 "CT" 0 { value := some 7, spent := false } false = (7, none) ∧
    resolveHopValue exEsploraC5 "S" 0 exOutspendC5 false = (5, some "tx_vout") ∧
    resolveHopValue exEsploraC5 "CT" 0 exOutspendC5 false = (5, some "proxy_spent_largest") ∧
    (resolveHopValue exEsploraC5 "CT" 0 exOutspendC5 false).2 ≠ some "unknown" := by
  refine ⟨?_, ?_, ?_,
    (C5_value_fallback_chain exEsploraC5 "CT" 0 exOutspendC5 false).2.2.2⟩
  · exact (C5_value_fallback_chain exEsploraC5 "CT" 0 { value := some 7, spent := false } false).1 7 rfl rfl
      (by decide)
  · exact (C5_value_fallback_chain exEsploraC5 "S" 0 exOutspendC5 false).2.1
      (exTx "S" [] [exOutput (some "W") none (some 5)]) (exOutput (some "W") none (some 5))
      (Or.inr rfl) rfl (by decide) rfl (by decide)
  · exact (C5_value_fallback_chain exEsploraC5 "CT" 0 exOutspendC5 false).2.2.1
      (exTx "CT" [] [exOutput none none (some 0)]) (exOutput none none (some 0))
      (exTx "S" [] [exOutput (some "W") none (some 5)])
      (Or.inr rfl) rfl (by decide) rfl rfl rfl rfl rfl (by decide)

theorem process_step_blank (F : FloatOps) (E : Esplora)
    (acc : List BipEdge × UnionFind.State × List TxFlag) (t : String)
    (h : pyStrip t = "") : process_step F E acc t = .ok acc := by
  simp [process_step, h, pure, Except.pure]

theorem process_step_error (F : FloatOps) (E : Esplora)
    (acc : List BipEdge × UnionFind.State × List TxFlag) (t : String) (e : String)
    (h : pyStrip t ≠ "") (hg : E.get_tx_json (pyStrip t) = .error e) :
    process_step F E acc t = .error e := by
  simp [process_step, h, hg, Bind.bind, Except.bind]

theorem process_step_ok (F : FloatOps) (E : Esplora)
    (acc : List BipEdge × UnionFind.State × List TxFlag) (t : String) (tx : TxJson)
    (h : pyStrip t ≠ "") (hg : E.get_tx_json (pyStrip t) = .ok tx) :
    process_step F E acc t =
      .ok (add_bipartite_edges_for_tx tx acc.1, batch_union_tx acc.2.1 tx,
        acc.2.2 ++ [{ txid := pyStrip t
                      coinjoin := (detect_coinjoin F tx).1
                      coinjoin_score := pyRoundTo (detect_coinjoin F tx).2 4
                      change_scores := detect_change_candidates_for_tx tx }]) := by
  simp [process_step, h, hg, Bind.bind, Except.bind, pure, Except.pure]

theorem foldlM_process_ok (F : FloatOps) (E : Esplora) :
    ∀ (l : List String) (acc : List BipEdge × UnionFind.State × List TxFlag),
      isOkE (l.foldlM (process_step F E) acc) = true ↔
        ∀ t ∈ l, pyStrip t ≠ "" → isOkE (E.get_tx_json (pyStrip t)) = true := by
  intro l
  induction l with
  | nil => intro acc; simp [List.foldlM, isOkE, pure, Except.pure]
  | cons t ts ih =>
    intro acc
    rw [List.foldlM_cons]
    by_cases hb : pyStrip t = ""
    · rw [process_step_blank F E acc t hb]
      simp only [Bind.bind, Except.bind]
      rw [ih acc]
      constructor
      · intro h u hu hnb
        rcases List.mem_cons.mp hu with rfl | hu2
        · exact absurd hb hnb
        · exact h u hu2 hnb
      · intro h u hu hnb
        exact h u (List.mem_cons_of_mem t hu) hnb
    · rcases hg : E.get_tx_json (pyStrip t) with e | tx
      · rw [process_step_error F E acc t e hb hg]
        simp only [Bind.bind, Except.bind]
        constructor
        · intro h; simp [isOkE] at h
        · intro h
          have := h t (List.mem_cons_self t ts) hb
          rw [hg] at this
          simp [isOkE] at this
      · rw [process_step_ok F E acc t tx hb hg]
        simp only [Bind.bind, Except.bind]
        rw [ih _]
        constructor
        · intro h u hu hnb
          rcases List.mem_cons.mp hu with rfl | hu2
          · rw [hg]; rfl
          · exact h u hu2 hnb
        · intro h u hu hnb
          exact h u (List.mem_cons_of_mem t hu) hnb

/-- C1 counterexample: the batch run over txids `a` and `b`, against a
provider that fails on `a` and answers `b`, aborts with the provider error
instead of returning results for the unaffected transaction `b`. -/
theorem C1_counterexample_batch_abort :
    process_txids sqrtZero exEsploraC1 ["a", "b"] = .error "boom" ∧
    isOkE (exEsploraC1.get_tx_json "b") = true := ⟨rfl, rfl⟩

/-- C1: in the batch pipeline the per-transaction fetch is not wrapped, so
the whole batch succeeds exactly when the provider answers every non-blank
stripped txid of the list — a single provider failure on any of them aborts
the entire analysis (no degradation to a local error tag happens there). -/
theorem C1_batch_aborts_on_provider_failure (F : FloatOps) (E : Esplora) (l : List String) :
    isOkE (process_txids F E l) = true ↔
      ∀ t ∈ l, pyStrip t ≠ "" → isOkE (E.get_tx_json (pyStrip t)) = true := by
  rw [← foldlM_process_ok F E l ([], [], [])]
  rw [process_txids]
  rcases h : l.foldlM (process_step F E) ([], [], []) with e | st <;>
    simp [Bind.bind, Except.bind, h, isOkE, pure, Except.pure]


/-- Witness for C1: a batch whose every txid the provider answers is
reported successful. -/
theorem C1_batch_aborts_on_provider_failure_witness :
    isOkE (process_txids sqrtZero exEsploraC1 ["b"]) = true :=
  (C1_batch_aborts_on_provider_failure sqrtZero exEsploraC1 ["b"]).mpr (by decide)

theorem map_ite_id {α : Type} (p : α → Prop) [DecidablePred p] (f : α → α) :
    ∀ l : List α, (∀ a ∈ l, ¬ p a) → l.map (fun a => if p a then f a else a) = l := by
  intro l
  induction l with
  | nil => intro _; rfl
  | cons x xs ih =>
    intro h
    simp only [List.map_cons, if_neg (h x (List.mem_cons_self x xs))]
    rw [ih (fun a ha => h a (List.mem_cons_of_mem x ha))]

theorem filter_one_map_ite {α : Type} (p : α → Prop) [DecidablePred p] (f : α → α) :
    ∀ l : List α, (l.filter (fun a => p a)).length = 1 →
      ∃ i, ∃ h : i < l.length, p (l.get ⟨i, h⟩) ∧
        l.map (fun a => if p a then f a else a) = l.set i (f (l.get ⟨i, h⟩)) := by
  intro l
  induction l with
  | nil => intro h; simp at h
  | cons x xs ih =>
    intro h
    by_cases hx : p x
    · rw [List.filter_cons_of_pos (by simpa using hx)] at h
      have hxs : xs.filter (fun a => decide (p a)) = [] := by
        have : (xs.filter (fun a => decide (p a))).length = 0 := by
          simpa using h
        exact List.length_eq_zero.mp this
      have hnone : ∀ a ∈ xs, ¬ p a := by
        intro a ha hpa
        have := List.filter_eq_nil.mp hxs a ha
        simp [hpa] at this
      refine ⟨0, by simp, by simpa using hx, ?_⟩
      simp only [List.map_cons, if_pos hx, List.set]
      rw [map_ite_id p f xs hnone]
      rfl
    · rw [List.filter_cons_of_neg (by simpa using hx)] at h
      obtain ⟨i, hi, hpi, hmap⟩ := ih h
      refine ⟨i + 1, by simpa using Nat.succ_lt_succ hi, by simpa using hpi, ?_⟩
      simp only [List.map_cons, if_neg hx, List.set]
      rw [hmap]
      rfl

theorem simple_main_flags (tx : TxJson) : ∀ r ∈ simple_main tx, r.flags = [] := by
  intro r hr
  obtain ⟨iv, _, rfl⟩ := List.mem_map.mp hr
  rfl

/-- C8: the sole-positive boost of both scoring variants.  With exactly one
strictly positive main-pass score, the simple variant adds +0.15 (capped at
1) to that output but carries no tag (its record has no flag field at all:
every simple record's flag list is empty), while the detailed variant adds
+0.12 (capped at 1) and tags `sole_positive_boost`; with zero or several
positive outputs both variants return the main pass unchanged. -/
theorem C8_sole_positive_boost (tx : TxJson) :
    (((simple_main tx).filter (fun o => 0 < o.score)).length = 1 →
      ∃ i, ∃ h : i < (simple_main tx).length,
        0 < ((simple_main tx).get ⟨i, h⟩).score ∧
        change_candidate_scores tx = (simple_main tx).set i
          { (simple_main tx).get ⟨i, h⟩ with
            score := min 1 (((simple_main tx).get ⟨i, h⟩).score + 3/20) }) ∧
    (((simple_main tx).filter (fun o => 0 < o.score)).length ≠ 1 →
      change_candidate_scores tx = simple_main tx) ∧
    (∀ r ∈ change_candidate_scores tx, r.flags = []) ∧
    (((detailed_main tx).filter (fun r => 0 < r.score)).length = 1 →
      ∃ i, ∃ h : i < (detailed_main tx).length,
        0 < ((detailed_main tx).get ⟨i, h⟩).score ∧
        detect_change_candidates_for_tx tx = (detailed_main tx).set i
          { (detailed_main tx).get ⟨i, h⟩ with
            score := min 1 (((detailed_main tx).get ⟨i, h⟩).score + 3/25)
            flags := ((detailed_main tx).get ⟨i, h⟩).flags ++ ["sole_positive_boost"] }) ∧
    (((detailed_main tx).filter (fun r => 0 < r.score)).length ≠ 1 →
      detect_change_candidates_for_tx tx = detailed_main tx) := by
  refine ⟨?_, ?_, ?_, ?_, ?_⟩
  · intro h
    obtain ⟨i, hi, hpi, hmap⟩ := filter_one_map_ite (fun o => 0 < o.score)
      (fun o => { o with score := min 1 (o.score + 3/20) }) (simple_main tx) h
    refine ⟨i, hi, hpi, ?_⟩
    rw [change_candidate_scores, sole_positive_boost_simple, if_pos h]
    exact hmap
  · intro h
    rw [change_candidate_scores, sole_positive_boost_simple, if_neg h]
  · intro r hr
    rw [change_candidate_scores, sole_positive_boost_simple] at hr
    split at hr
    · obtain ⟨o, ho, rfl⟩ := List.mem_map.mp hr
      split
      · exact simple_main_flags tx o ho
      · exact simple_main_flags tx o ho
    · exact simple_main_flags tx r hr
  · intro h
    obtain ⟨i, hi, hpi, hmap⟩ := filter_one_map_ite (fun r => 0 < r.score)
      (fun r => { r with
        score := min 1 (r.score + 3/25)
        flags := r.flags ++ ["sole_positive_boost"] }) (detailed_main tx) h
    refine ⟨i, hi, hpi, ?_⟩
    rw [detect_change_candidates_for_tx, sole_positive_boost_detailed, if_pos h]
    exact hmap
  · intro h
    rw [detect_change_candidates_for_tx, sole_positive_boost_detailed, if_neg h]

theorem pyRoundTo_45_4 : pyRoundTo (4/5 : ℚ) 4 = 4/5 := by
  have h1 : ((4:ℚ)/5) * (10:ℚ)^(4:ℕ) = 8000 := by norm_num
  have h2 : pyRound 8000 = 8000 := by
    simp only [pyRound]
    norm_num
  simp only [pyRoundTo, h1, h2]
  norm_num

theorem pyRoundTo_0_4 : pyRoundTo (0 : ℚ) 4 = 0 := by
  have h2 : pyRound 0 = 0 := by
    simp only [pyRound]
    norm_num
  simp only [pyRoundTo]
  norm_num [h2]

theorem simple_main_exTxC8 :
    simple_main exTxC8 =
      [{ vout_index := 0, address := "A", value := 50, score := 4/5 },
       { vout_index := 1, address := "B", value := 100, score := 0 }] := by
  have hmaj : majorityOf ["s1"] = some "s1" := by decide
  have hA : ("A" = "") = False := by simp
  have hB : ("B" = "") = False := by simp
  have hs1 : ("s1" = "") = False := by simp
  have hBA : ("B" = "A") = False := by simp
  have hs2 : ("s2" = "s1") = False := by simp
  simp only [simple_main, simpleVinAddrs, simpleVinTypes, simpleMaxIn, exTxC8, exTx, exInput,
    exOutput, List.map, pyOrInt, Option.getD, List.filterMap, List.enum]
  norm_num [hmaj, hA, hB, hs1, hBA, hs2, pyMaxD0, pyOrStr, strTruthy, pyRoundTo_45_4,
    pyRoundTo_0_4, List.enumFrom]

theorem change_scores_exTxC8 :
    change_candidate_scores exTxC8 =
      [{ vout_index := 0, address := "A", value := 50, score := 19/20 },
       { vout_index := 1, address := "B", value := 100, score := 0 }] := by
  rw [change_candidate_scores, simple_main_exTxC8]
  simp only [sole_positive_boost_simple, List.filter, List.map]
  norm_num

/-- C8 counterexample: on a transaction where exactly one output scores
positive, the simple scorer boosts it by +0.15 (0.8 to 0.95) but attaches no
`sole_positive_boost` tag anywhere, contradicting the claimed tagging. -/
theorem C8_counterexample_simple_boost_untagged :
    ((simple_main exTxC8).filter (fun o => 0 < o.score)).length = 1 ∧
    change_candidate_scores exTxC8 =
      [{ vout_index := 0, address := "A", value := 50, score := 19/20 },
       { vout_index := 1, address := "B", value := 100, score := 0 }] ∧
    (19/20 : ℚ) = 4/5 + 3/20 ∧
    ∀ r ∈ change_candidate_scores exTxC8, "sole_positive_boost" ∉ r.flags := by
  refine ⟨?_, change_scores_exTxC8, by norm_num, ?_⟩
  · rw [simple_main_exTxC8]
    simp only [List.filter]
    norm_num
  · intro r hr
    rw [change_scores_exTxC8] at hr
    simp only [List.mem_cons, List.not_mem_nil, or_false] at hr
    rcases hr with rfl | rfl <;> simp

/-- Witness for C8: the boost cases at concrete transactions (simple variant
at `exTxC8`, detailed variant at `exTxC4`). -/
theorem C8_sole_positive_boost_witness :
    (∃ i, ∃ h : i < (simple_main exTxC8).length,
      0 < ((simple_main exTxC8).get ⟨i, h⟩).score ∧
      change_candidate_scores exTxC8 = (simple_main exTxC8).set i
        { (simple_main exTxC8).get ⟨i, h⟩ with
          score := min 1 (((simple_main exTxC8).get ⟨i, h⟩).score + 3/20) }) ∧
    (∃ i, ∃ h : i < (detailed_main exTxC4).length,
      0 < ((detailed_main exTxC4).get ⟨i, h⟩).score ∧
      detect_change_candidates_for_tx exTxC4 = (detailed_main exTxC4).set i
        { (detailed_main exTxC4).get ⟨i, h⟩ with
          score := min 1 (((detailed_main exTxC4).get ⟨i, h⟩).score + 3/25)
          flags := ((detailed_main exTxC4).get ⟨i, h⟩).flags ++ ["sole_positive_boost"] }) := by
  constructor
  · refine (C8_sole_positive_boost exTxC8).1 ?_
    rw [simple_main_exTxC8]
    simp only [List.filter]
    norm_num
  · refine (C8_sole_positive_boost exTxC4).2.2.2.1 ?_
    rw [detailed_main_exTxC4]
    simp only [List.filter]
    norm_num

set_option maxHeartbeats 2000000 in
/-- C7: the per-output change-score signals of the two variants.  In the
simple variant the script-majority and remainder signals are each +0.2 and
the remainder base is the largest single input value, as claimed; in the
detailed variant the script-majority signal is +0.15, the remainder signal
is +0.10, and the remainder base is the *total* input value (`sum or 1`),
not the largest single input. -/
theorem C7_change_score_weights (tx : TxJson) :
    (∀ i, ∀ hi : i < tx.vout.length, ∃ hs : i < (simple_main tx).length,
      ((simple_main tx).get ⟨i, hs⟩).score =
        pyRoundTo (min
          ((if strTruthy (tx.vout.get ⟨i, hi⟩).scriptpubkey_address = true ∧
              ((tx.vout.get ⟨i, hi⟩).scriptpubkey_address.getD "") ∈ simpleVinAddrs tx
            then (2/5 : ℚ) else 0) +
           (if strTruthy (majorityOf (simpleVinTypes tx)) = true ∧
              (tx.vout.get ⟨i, hi⟩).scriptpubkey_type = majorityOf (simpleVinTypes tx)
            then (1/5 : ℚ) else 0) +
           (if 0 < simpleMaxIn tx ∧
              ((pyOrInt (tx.vout.get ⟨i, hi⟩).value : ℚ)) < (simpleMaxIn tx : ℚ) * (19/20) ∧
              0 < pyOrInt (tx.vout.get ⟨i, hi⟩).value
            then (1/5 : ℚ) else 0)) 1) 4) ∧
    (∀ r ∈ detailed_main tx,
      r.score = pyRoundTo (max (-1) (min 1 (
        (if "high_decimal" ∈ r.flags then (1/5 : ℚ) else 0) +
        (if "round_amount" ∈ r.flags then -(3/20 : ℚ) else 0) +
        (if "script_match" ∈ r.flags then (3/20 : ℚ) else 0) +
        (if "smaller_than_inputs" ∈ r.flags then (1/10 : ℚ) else 0) +
        (if "coinjoin_like" ∈ r.flags then -(1/5 : ℚ) else 0)))) 3 ∧
      ("smaller_than_inputs" ∈ r.flags ↔
        0 < detailedTotalIn tx ∧ 0 < r.value_sats ∧
          (r.value_sats : ℚ) < (detailedTotalIn tx : ℚ) * (19/20))) := by
  constructor
  · intro i hi
    have hs : i < (simple_main tx).length := by
      simpa [simple_main] using hi
    refine ⟨hs, ?_⟩
    rw [List.get_eq_getElem, List.get_eq_getElem]
    simp only [simple_main, List.getElem_map, List.getElem_enum]
  · intro r hr
    simp only [detailed_main, List.mem_map] at hr
    obtain ⟨iv, hiv, rfl⟩ := hr
    by_cases c1 : 6 ≤ decimalLen (pyOrInt iv.2.value) <;>
    by_cases c2 : 5 ≤ trailing_zeros_in_sats (pyOrInt iv.2.value) <;>
    by_cases c3 : strTruthy (majorityOf (simpleVinTypes tx)) = true ∧
      iv.2.scriptpubkey_type = majorityOf (simpleVinTypes tx) <;>
    by_cases c4 : 0 < detailedTotalIn tx ∧ 0 < pyOrInt iv.2.value ∧
      ((pyOrInt iv.2.value : ℚ)) < (detailedTotalIn tx : ℚ) * (19/20) <;>
    by_cases c5 : ¬ (tx.vout.map (fun v => pyOrInt v.value)).Nodup <;>
    simp [c1, c2, c3, c4, c5]

theorem pyRoundTo_320 : pyRoundTo (3/20 : ℚ) 3 = 3/20 := by
  have h1 : ((3:ℚ)/20) * (10:ℚ)^(3:ℕ) = 150 := by norm_num
  have h2 : pyRound 150 = 150 := by
    simp only [pyRound]
    norm_num
  simp only [pyRoundTo, h1, h2]
  norm_num

theorem pyRoundTo_15_3 : pyRoundTo (1/5 : ℚ) 3 = 1/5 := by
  have h1 : ((1:ℚ)/5) * (10:ℚ)^(3:ℕ) = 200 := by norm_num
  have h2 : pyRound 200 = 200 := by
    simp only [pyRound]
    norm_num
  simp only [pyRoundTo, h1, h2]
  norm_num

theorem pyRoundTo_310 : pyRoundTo (3/10 : ℚ) 3 = 3/10 := by
  have h1 : ((3:ℚ)/10) * (10:ℚ)^(3:ℕ) = 300 := by norm_num
  have h2 : pyRound 300 = 300 := by
    simp only [pyRound]
    norm_num
  simp only [pyRoundTo, h1, h2]
  norm_num

theorem tz10_60 : tz10 60 = 1 := by
  have h6 : tz10 6 = 0 := tz10_of_not 6 (by decide)
  rw [tz10]
  norm_num [h6]

theorem detailed_main_exTxC7 :
    detailed_main exTxC7 =
      [{ vout_index := 0, address := "NON_STD_0", value_sats := 0, score := 3/20, flags := ["script_match"] },
       { vout_index := 1, address := "X", value_sats := 123, score := 1/5, flags := ["high_decimal"] }] := by
  have hmaj : majorityOf ["p2wpkh"] = some "p2wpkh" := by decide
  have htz : tz10 (Int.toNat 123) = 0 := tz10_of_not _ (by decide)
  have hns : "NON_STD_" ++ toString (0 : ℕ) = "NON_STD_0" := by decide
  have hp : ("p2wpkh" = "") = False := by simp
  have hX : ("X" = "") = False := by simp
  have hpt : (some "p2tr" = some "p2wpkh") = False := by simp
  have h123 : tz10 123 = 0 := tz10_of_not 123 (by decide)
  simp only [detailed_main, simpleVinTypes, detailedTotalIn, exTxC7, exTx, exInput, exOutput,
    List.map, pyOrInt, Option.getD, List.filterMap, List.enum]
  norm_num [hmaj, htz, hns, hp, hX, hpt, h123, decimalLen_123, decimalLen, trailing_zeros_in_sats,
    pyOrStr, strTruthy, pyRoundTo_320, pyRoundTo_15_3, List.Nodup, List.enumFrom]

theorem detect_exTxC7 :
    detect_change_candidates_for_tx exTxC7 =
      [{ vout_index := 0, address := "NON_STD_0", value_sats := 0, score := 3/20, flags := ["script_match"] },
       { vout_index := 1, address := "X", value_sats := 123, score := 1/5, flags := ["high_decimal"] }] := by
  rw [detect_change_candidates_for_tx, detailed_main_exTxC7]
  simp only [sole_positive_boost_detailed, List.filter]
  norm_num

theorem detailed_main_exTxC7b :
    detailed_main exTxC7b =
      [{ vout_index := 0, address := "Y", value_sats := 60, score := 3/10, flags := ["high_decimal", "smaller_than_inputs"] }] := by
  have hmaj : majorityOf ["w", "z"] = some "w" := by decide
  have htz : tz10 (Int.toNat 60) = 1 := tz10_60
  have hdl : decimalLen 60 = 7 := by simp [decimalLen, tz10_60]
  have hY : ("Y" = "") = False := by simp
  have hw : ("w" = "") = False := by simp
  have hnw : ((none : Option String) = some "w") = False := by simp
  simp only [detailed_main, simpleVinTypes, detailedTotalIn, exTxC7b, exTx, exInput, exOutput,
    List.map, pyOrInt, Option.getD, List.filterMap, List.enum]
  norm_num [hmaj, htz, hdl, hY, hw, hnw, tz10_60, trailing_zeros_in_sats, pyOrStr, strTruthy,
    pyRoundTo_310, List.Nodup, List.enumFrom]

theorem detect_exTxC7b :
    detect_change_candidates_for_tx exTxC7b =
      [{ vout_index := 0, address := "Y", value_sats := 60, score := 21/50, flags := ["high_decimal", "smaller_than_inputs", "sole_positive_boost"] }] := by
  rw [detect_change_candidates_for_tx, detailed_main_exTxC7b]
  simp only [sole_positive_boost_detailed, List.filter]
  norm_num

theorem simple_main_exTxC7b :
    simple_main exTxC7b = [{ vout_index := 0, address := "Y", value := 60, score := 0 }] := by
  have hmaj : majorityOf ["w", "z"] = some "w" := by decide
  have hY : ("Y" = "") = False := by simp
  have hnw : ((none : Option String) = some "w") = False := by simp
  simp only [simple_main, simpleVinAddrs, simpleVinTypes, simpleMaxIn, exTxC7b, exTx, exInput,
    exOutput, List.map, pyOrInt, Option.getD, List.filterMap, List.enum]
  norm_num [hmaj, hY, hnw, pyMaxD0, pyOrStr, strTruthy, pyRoundTo_0_4, List.enumFrom]

theorem change_scores_exTxC7b :
    change_candidate_scores exTxC7b =
      [{ vout_index := 0, address := "Y", value := 60, score := 0 }] := by
  rw [change_candidate_scores, simple_main_exTxC7b]
  simp only [sole_positive_boost_simple, List.filter]
  norm_num

/-- C7 counterexample: an output that only matches the majority input script
scores 0.15 (not 0.2) in the detailed variant; and a 60-sat output of a
2x50-sat-input transaction is *not* below 95% of the largest single input
(47.5) yet receives the detailed `smaller_than_inputs` signal, because that
variant compares against 95% of the total input value (95) — while the
simple variant, which does use the largest single input, scores it 0. -/
theorem C7_counterexample_signal_weights :
    detect_change_candidates_for_tx exTxC7 =
      [{ vout_index := 0, address := "NON_STD_0", value_sats := 0, score := 3/20, flags := ["script_match"] },
       { vout_index := 1, address := "X", value_sats := 123, score := 1/5, flags := ["high_decimal"] }] ∧
    (3/20 : ℚ) ≠ 1/5 ∧
    change_candidate_scores exTxC7b =
      [{ vout_index := 0, address := "Y", value := 60, score := 0 }] ∧
    detect_change_candidates_for_tx exTxC7b =
      [{ vout_index := 0, address := "Y", value_sats := 60, score := 21/50, flags := ["high_decimal", "smaller_than_inputs", "sole_positive_boost"] }] ∧
    ¬ ((60 : ℚ) < (simpleMaxIn exTxC7b : ℚ) * (19/20)) ∧
    ((60 : ℚ) < (detailedTotalIn exTxC7b : ℚ) * (19/20)) := by
  have hmax : simpleMaxIn exTxC7b = 50 := by decide
  have htot : detailedTotalIn exTxC7b = 100 := by decide
  refine ⟨detect_exTxC7, by norm_num, change_scores_exTxC7b, detect_exTxC7b, ?_, ?_⟩
  · rw [hmax]; norm_num
  · rw [htot]; norm_num

/-- Witness for C7 at a concrete output of `exTxC7b` (simple variant) and
the concrete main-pass record of `exTxC4` (detailed variant). -/
theorem C7_change_score_weights_witness :
    (∃ hs : 0 < (simple_main exTxC7b).length,
      ((simple_main exTxC7b).get ⟨0, hs⟩).score =
        pyRoundTo (min
          ((if strTruthy (exTxC7b.vout.get ⟨0, by decide⟩).scriptpubkey_address = true ∧
              ((exTxC7b.vout.get ⟨0, by decide⟩).scriptpubkey_address.getD "") ∈
                simpleVinAddrs exTxC7b
            then (2/5 : ℚ) else 0) +
           (if strTruthy (majorityOf (simpleVinTypes exTxC7b)) = true ∧
              (exTxC7b.vout.get ⟨0, by decide⟩).scriptpubkey_type =
                majorityOf (simpleVinTypes exTxC7b)
            then (1/5 : ℚ) else 0) +
           (if 0 < simpleMaxIn exTxC7b ∧
              ((pyOrInt (exTxC7b.vout.get ⟨0, by decide⟩).value : ℚ)) <
                (simpleMaxIn exTxC7b : ℚ) * (19/20) ∧
              0 < pyOrInt (exTxC7b.vout.get ⟨0, by decide⟩).value
            then (1/5 : ℚ) else 0)) 1) 4) ∧
    (exMainRecC4.score = pyRoundTo (max (-1) (min 1 (
        (if "high_decimal" ∈ exMainRecC4.flags then (1/5 : ℚ) else 0) +
        (if "round_amount" ∈ exMainRecC4.flags then -(3/20 : ℚ) else 0) +
        (if "script_match" ∈ exMainRecC4.flags then (3/20 : ℚ) else 0) +
        (if "smaller_than_inputs" ∈ exMainRecC4.flags then (1/10 : ℚ) else 0) +
        (if "coinjoin_like" ∈ exMainRecC4.flags then -(1/5 : ℚ) else 0)))) 3 ∧
      ("smaller_than_inputs" ∈ exMainRecC4.flags ↔
        0 < detailedTotalIn exTxC4 ∧ 0 < exMainRecC4.value_sats ∧
          (exMainRecC4.value_sats : ℚ) < (detailedTotalIn exTxC4 : ℚ) * (19/20))) :=
  ⟨(C7_change_score_weights exTxC7b).1 0 (by decide),
   (C7_change_score_weights exTxC4).2 exMainRecC4 (by simp [detailed_main_exTxC4, exMainRecC4])⟩

theorem pyRound_le (q : ℚ) : (pyRound q : ℚ) ≤ q + 1/2 := by
  have hfl : (⌊q⌋ : ℚ) ≤ q := Int.floor_le q
  simp only [pyRound]
  split_ifs with h1 h2 h3
  · linarith
  · push_cast
    linarith
  · linarith
  · push_cast
    have hr : 1/2 ≤ q - (⌊q⌋ : ℚ) := not_lt.mp h1
    linarith

theorem sum_zero_all_zero :
    ∀ l : List Int, (∀ x ∈ l, 0 ≤ x) → l.sum = 0 → ∀ x ∈ l, x = 0 := by
  intro l
  induction l with
  | nil => intro _ _ x hx; simp at hx
  | cons y ys ih =>
    intro hnn hsum x hx
    have hy : 0 ≤ y := hnn y (List.mem_cons_self y ys)
    have hys : 0 ≤ ys.sum := List.sum_nonneg (fun z hz => hnn z (List.mem_cons_of_mem y hz))
    rw [List.sum_cons] at hsum
    rcases List.mem_cons.mp hx with rfl | hx2
    · omega
    · exact ih (fun z hz => hnn z (List.mem_cons_of_mem y hz)) (by omega) x hx2

theorem proj_inner_bound (t oname : String) (ov : Int) (hov : (0:ℚ) ≤ (ov : ℚ))
    (T : Int) (hT : (0:ℚ) < (T : ℚ)) :
    ∀ inputs : List (String × Int), (∀ p ∈ inputs, 0 ≤ p.2) →
      (((((inputs.filterMap (fun inp =>
          if (((inp.2 : ℚ) / (T : ℚ)) * (ov : ℚ)) ≤ 0 then none
          else some ({ txid := t, src := inp.1, dst := oname, sats := pyRound (((inp.2 : ℚ) / (T : ℚ)) * (ov : ℚ)) } : ProjEdge))).map
          (fun e => e.sats)).sum : ℤ)) : ℚ)
        ≤ (((inputs.map (fun p => p.2)).sum : ℤ) : ℚ) / (T : ℚ) * (ov : ℚ)
          + (inputs.length : ℚ) / 2 := by
  intro inputs
  induction inputs with
  | nil => simp
  | cons p ps ih =>
    intro hnn
    have hp : (0:ℚ) ≤ (p.2 : ℚ) := by
      exact_mod_cast hnn p (List.mem_cons_self p ps)
    have hrest := ih (fun z hz => hnn z (List.mem_cons_of_mem p hz))
    have hshare : (0:ℚ) ≤ ((p.2 : ℚ) / (T : ℚ)) * (ov : ℚ) :=
      mul_nonneg (div_nonneg hp (le_of_lt hT)) hov
    have hsplit : ((((p :: ps).map (fun p => p.2)).sum : ℤ) : ℚ) / (T : ℚ) * (ov : ℚ)
        = ((p.2 : ℚ) / (T : ℚ)) * (ov : ℚ)
          + (((ps.map (fun p => p.2)).sum : ℤ) : ℚ) / (T : ℚ) * (ov : ℚ) := by
      rw [List.map_cons, List.sum_cons, Int.cast_add]
      ring
    have hlen : (((p :: ps).length : ℕ) : ℚ) = (ps.length : ℚ) + 1 := by
      rw [List.length_cons]
      push_cast
      ring
    rw [List.filterMap_cons]
    by_cases hle : (((p.2 : ℚ) / (T : ℚ)) * (ov : ℚ)) ≤ 0
    · rw [if_pos hle, hsplit, hlen]
      linarith
    · rw [if_neg hle, hsplit, hlen, List.map_cons, List.sum_cons, Int.cast_add]
      have hpr := pyRound_le (((p.2 : ℚ) / (T : ℚ)) * (ov : ℚ))
      linarith

theorem project_for_tx_bound (t : String) (inputs outputs : List (String × Int))
    (hin : ∀ p ∈ inputs, 0 ≤ p.2) (hout : ∀ q ∈ outputs, 0 ≤ q.2) :
    2 * (((project_for_tx t inputs outputs).map (fun e => e.sats)).sum)
      ≤ 2 * (outputs.map (fun q => q.2)).sum
        + (inputs.length : Int) * (outputs.length : Int) := by
  have houtsum : 0 ≤ (outputs.map (fun q => q.2)).sum :=
    List.sum_nonneg (fun z hz => by
      obtain ⟨q, hq, rfl⟩ := List.mem_map.mp hz
      exact hout q hq)
  by_cases hzero : (inputs.map (fun i => i.2)).sum = 0
  · have hall : ∀ p ∈ inputs, p.2 = 0 := by
      intro p hp
      exact sum_zero_all_zero (inputs.map (fun i => i.2))
        (fun z hz => by
          obtain ⟨q, hq, rfl⟩ := List.mem_map.mp hz
          exact hin q hq)
        hzero p.2 (List.mem_map.mpr ⟨p, hp, rfl⟩)
    have hemp : project_for_tx t inputs outputs = [] := by
      simp only [project_for_tx, if_pos hzero]
      rw [List.flatMap_eq_nil_iff]
      intro od _
      rw [List.filterMap_eq_nil_iff]
      intro inp hinp
      rw [if_pos]
      rw [hall inp hinp]
      simp
    rw [hemp]
    simp only [List.map_nil, List.sum_nil, mul_zero]
    positivity
  · have hTpos : 0 < (inputs.map (fun i => i.2)).sum := by
      rcases lt_or_eq_of_le (List.sum_nonneg (fun z hz => by
        obtain ⟨q, hq, rfl⟩ := List.mem_map.mp hz
        exact hin q hq)) with h | h
      · exact h
      · exact absurd h.symm hzero
    have hTq : (0:ℚ) < (((inputs.map (fun i => i.2)).sum : ℤ) : ℚ) := by
      exact_mod_cast hTpos
    have key : ∀ outs : List (String × Int), (∀ q ∈ outs, 0 ≤ q.2) →
        ((((outs.flatMap (fun od =>
            inputs.filterMap (fun inp =>
              if (((inp.2 : ℚ) / (((inputs.map (fun i => i.2)).sum : ℤ) : ℚ)) * (od.2 : ℚ)) ≤ 0
              then none
              else some ({ txid := t, src := inp.1, dst := od.1, sats := pyRound (((inp.2 : ℚ) / (((inputs.map (fun i => i.2)).sum : ℤ) : ℚ)) * (od.2 : ℚ)) } : ProjEdge)))).map
          (fun e => e.sats)).sum : ℤ) : ℚ)
          ≤ (((outs.map (fun q => q.2)).sum : ℤ) : ℚ)
            + (inputs.length : ℚ) * (outs.length : ℚ) / 2 := by
      intro outs
      induction outs with
      | nil => simp
      | cons od os ih =>
        intro hnn
        have hov : (0:ℚ) ≤ ((od.2 : ℤ) : ℚ) := by
          exact_mod_cast hnn od (List.mem_cons_self od os)
        have hblock := proj_inner_bound t od.1 od.2 hov
          ((inputs.map (fun i => i.2)).sum) hTq inputs hin
        have hrest := ih (fun z hz => hnn z (List.mem_cons_of_mem od hz))
        have hsplit : ((((od :: os).map (fun q => q.2)).sum : ℤ) : ℚ)
            = ((od.2 : ℤ) : ℚ) + (((os.map (fun q => q.2)).sum : ℤ) : ℚ) := by
          rw [List.map_cons, List.sum_cons, Int.cast_add]
        have hlen : (((od :: os).length : ℕ) : ℚ) = (os.length : ℚ) + 1 := by
          rw [List.length_cons]
          push_cast
          ring
        rw [List.flatMap_cons, List.map_append, List.sum_append, Int.cast_add, hsplit, hlen]
        have hdiv : (((inputs.map (fun i => i.2)).sum : ℤ) : ℚ)
            / (((inputs.map (fun i => i.2)).sum : ℤ) : ℚ) = 1 :=
          div_self (ne_of_gt hTq)
        rw [hdiv, one_mul] at hblock
        linarith
    have hq := key outputs hout
    have hfinal : ((((project_for_tx t inputs outputs).map (fun e => e.sats)).sum : ℤ) : ℚ)
        ≤ (((outputs.map (fun q => q.2)).sum : ℤ) : ℚ)
          + (inputs.length : ℚ) * (outputs.length : ℚ) / 2 := by
      rw [project_for_tx, if_neg hzero]
      exact hq
    have h2 : 2 * ((((project_for_tx t inputs outputs).map (fun e => e.sats)).sum : ℤ) : ℚ)
        ≤ 2 * (((outputs.map (fun q => q.2)).sum : ℤ) : ℚ)
          + (inputs.length : ℚ) * (outputs.length : ℚ) := by linarith
    exact_mod_cast h2

theorem project_for_tx_txid (t : String) (inputs outputs : List (String × Int)) :
    ∀ e ∈ project_for_tx t inputs outputs, e.txid = t := by
  intro e he
  simp only [project_for_tx, List.mem_flatMap, List.mem_filterMap] at he
  obtain ⟨od, _, inp, _, hsome⟩ := he
  split at hsome <;> split at hsome <;>
    first
      | exact Option.noConfusion hsome
      | (cases Option.some.inj hsome; rfl)

theorem flatMap_filter_txid (g : String → List ProjEdge)
    (hg : ∀ t' e, e ∈ g t' → e.txid = t') (t : String) :
    ∀ l : List String, l.Nodup →
      (l.flatMap g).filter (fun e => e.txid = t) = if t ∈ l then g t else [] := by
  intro l
  induction l with
  | nil => intro _; simp
  | cons a l' ih =>
    intro hnd
    rw [List.flatMap_cons, List.filter_append]
    by_cases hat : a = t
    · subst hat
      have h1 : (g a).filter (fun e => e.txid = a) = g a :=
        List.filter_eq_self.mpr (fun e he => by simp [hg a e he])
      have hnotin : a ∉ l' := (List.nodup_cons.mp hnd).1
      rw [h1, ih (List.nodup_cons.mp hnd).2, if_neg hnotin, if_pos (List.mem_cons_self a l')]
      simp
    · have h1 : (g a).filter (fun e => e.txid = t) = [] := by
        rw [List.filter_eq_nil_iff]
        intro e he
        simp [hg a e he, hat]
      rw [h1, ih (List.nodup_cons.mp hnd).2, List.nil_append]
      by_cases hmem : t ∈ l'
      · rw [if_pos hmem, if_pos (List.mem_cons_of_mem a hmem)]
      · rw [if_neg hmem, if_neg (by
          intro hc
          rcases List.mem_cons.mp hc with rfl | h2
          · exact hat rfl
          · exact hmem h2)]

theorem proj_filter_blocks (bip : List BipEdge) (t : String) :
    (project_address_to_address bip).filter (fun e => e.txid = t) =
      if t ∈ proj_txids bip then
        project_for_tx t (tx_inputs_of bip t) (tx_outputs_of bip t)
      else [] := by
  rw [project_address_to_address]
  exact flatMap_filter_txid
    (fun u => project_for_tx u (tx_inputs_of bip u) (tx_outputs_of bip u))
    (fun t' e he => project_for_tx_txid t' (tx_inputs_of bip t') (tx_outputs_of bip t') e he)
    t (proj_txids bip) (by rw [proj_txids]; exact List.nodup_dedup _)

/-- C3: per-transaction value conservation holds only up to rounding slack.
For nonnegative input and output values, twice the sum of the projected
edge values attributed to a transaction is at most twice that transaction's
output-value sum plus one unit per (input, output) pair — each rounded
share can exceed the exact share by at most 1/2. -/
theorem C3_projection_value_bound (bip : List BipEdge) (t : String)
    (hin : ∀ p ∈ tx_inputs_of bip t, 0 ≤ p.2)
    (hout : ∀ q ∈ tx_outputs_of bip t, 0 ≤ q.2) :
    2 * (((project_address_to_address bip).filter (fun e => e.txid = t)).map
        (fun e => e.sats)).sum ≤
      2 * ((tx_outputs_of bip t).map (fun q => q.2)).sum +
        ((tx_inputs_of bip t).length : Int) * ((tx_outputs_of bip t).length : Int) := by
  rw [proj_filter_blocks]
  have houtsum : 0 ≤ ((tx_outputs_of bip t).map (fun q => q.2)).sum :=
    List.sum_nonneg (fun z hz => by
      obtain ⟨q, hq, rfl⟩ := List.mem_map.mp hz
      exact hout q hq)
  split
  · exact project_for_tx_bound t (tx_inputs_of bip t) (tx_outputs_of bip t) hin hout
  · simp only [List.map_nil, List.sum_nil, mul_zero]
    positivity

theorem pyRound_3half : pyRound (3/2 : ℚ) = 2 := by
  simp only [pyRound]
  norm_num

theorem proj_exTxC3 :
    project_address_to_address (build_bipartite [exTxC3]) =
      [{ txid := "t3", src := "A", dst := "C", sats := 2 },
       { txid := "t3", src := "B", dst := "C", sats := 2 }] := by
  have htxids : proj_txids (build_bipartite [exTxC3]) = ["t3"] := by decide
  have hins : tx_inputs_of (build_bipartite [exTxC3]) "t3" = [("A", 1), ("B", 1)] := by decide
  have houts : tx_outputs_of (build_bipartite [exTxC3]) "t3" = [("C", 3)] := by decide
  rw [project_address_to_address, htxids, List.flatMap_cons, List.flatMap_nil,
    List.append_nil, hins, houts]
  simp only [project_for_tx, List.map_cons, List.map_nil, List.sum_cons, List.sum_nil,
    List.flatMap_cons, List.flatMap_nil, List.filterMap_cons, List.filterMap_nil]
  norm_num [pyRound_3half]

/-- C3 counterexample: for a transaction with two 1-sat inputs and one 3-sat
output, both proportional shares are 1.5 sats and banker's rounding sends
each to 2, so the projected edges attributed to the transaction sum to 4,
strictly exceeding the 3-sat output total. -/
theorem C3_counterexample_rounding_overshoot :
    ((project_address_to_address (build_bipartite [exTxC3])).map (fun e => e.sats)).sum = 4 ∧
    ((tx_outputs_of (build_bipartite [exTxC3]) "t3").map (fun q => q.2)).sum = 3 ∧
    (∀ e ∈ project_address_to_address (build_bipartite [exTxC3]), e.txid = "t3") ∧
    ¬ (((project_address_to_address (build_bipartite [exTxC3])).map (fun e => e.sats)).sum ≤
        ((tx_outputs_of (build_bipartite [exTxC3]) "t3").map (fun q => q.2)).sum) := by
  refine ⟨by rw [proj_exTxC3]; rfl, by decide, ?_, ?_⟩
  · intro e he
    rw [proj_exTxC3] at he
    rcases List.mem_cons.mp he with rfl | he2
    · rfl
    · rcases List.mem_cons.mp he2 with rfl | he3
      · rfl
      · exact absurd he3 (List.not_mem_nil e)
  · rw [proj_exTxC3]
    decide

/-- Witness for C3 at the concrete overshooting transaction (the bound is
tight there: 8 <= 8). -/
theorem C3_projection_value_bound_witness :
    2 * (((project_address_to_address (build_bipartite [exTxC3])).filter
        (fun e => e.txid = "t3")).map (fun e => e.sats)).sum ≤
      2 * ((tx_outputs_of (build_bipartite [exTxC3]) "t3").map (fun q => q.2)).sum +
        ((tx_inputs_of (build_bipartite [exTxC3]) "t3").length : Int) *
          ((tx_outputs_of (build_bipartite [exTxC3]) "t3").length : Int) :=
  C3_projection_value_bound (build_bipartite [exTxC3]) "t3" (by decide) (by decide)
